import Mathlib

/-!
# Verification of the IP-interconnect configuration generator

The generator ingests two tables (an IP table and an interconnect table),
resolves every name occurring in the interconnects' master/slave lists to a
canonical identifier (M1, M2, …, S1, S2, …), back-fills baseline attributes
from the IP table, propagates each interconnect's electrical parameters to
the records of its listed IPs, and renders a fixed-width report.

Python dictionaries are modelled as association lists with Python's
insertion semantics: inserting an existing key updates the value in place
(keeping the key's original position), inserting a fresh key appends, and
iteration over values follows insertion order.  The two Python sets built
by `_identify_masters_slaves` are only consumed through `sorted()` and
through membership/intersection, so the pipeline is parametrised by an
arbitrary enumeration of each set; the canonical enumeration is the
first-occurrence deduplication of the concatenated membership lists.
Spreadsheet discovery and cell parsing are the external input adapter: the
pipeline receives the already-parsed rows of both sheets.
-/

/-- Mirror of the `IPConfig` dataclass. -/
structure IPConfig where
  original_name : String
  role : String
  read_write : String
  original_bit_width : Int
  original_frequency : Int
  original_clk_domain : String
  final_bit_width : Int
  final_frequency : Int
  final_protocol : String
  final_clk_domain : String
  connected_interconnect : String
deriving Repr, DecidableEq

/-- Constructing an `IPConfig` with only the first six dataclass fields,
the rest taking the dataclass defaults (`0`, `0`, `"-"`, `"-"`, `"-"`). -/
def IPConfig.mkBasic (name role rw : String) (obw ofreq : Int) (oclk : String) : IPConfig :=
  { original_name := name
    role := role
    read_write := rw
    original_bit_width := obw
    original_frequency := ofreq
    original_clk_domain := oclk
    final_bit_width := 0
    final_frequency := 0
    final_protocol := "-"
    final_clk_domain := "-"
    connected_interconnect := "-" }

/-- Mirror of the `InterconnectConfig` dataclass; `master_ips` and
`slave_ips` hold the comma-split, whitespace-trimmed original IP names. -/
structure InterconnectConfig where
  name : String
  bit_width : Int
  frequency : Int
  protocol : String
  clk_domain : String
  master_ips : List String
  slave_ips : List String
deriving Repr, DecidableEq

/-- One already-parsed row of the IP sheet (columns: name, read/write,
bit width, frequency, clock domain). -/
structure IPRow where
  name : String
  read_write : String
  bit_width : Int
  frequency : Int
  clk_domain : String
deriving Repr, DecidableEq

/-! ## Python dictionaries as association lists -/

/-- Lookup in a Python dict modelled as an association list. -/
def dictLookup {α : Type} : List (String × α) → String → Option α
  | [], _ => none
  | p :: d, k => if p.1 = k then some p.2 else dictLookup d k

/-- `d[k] = v` on a Python dict: an existing key keeps its position and
gets the new value, a fresh key is appended. -/
def dictInsert {α : Type} (d : List (String × α)) (k : String) (v : α) : List (String × α) :=
  if (dictLookup d k).isSome then
    d.map (fun p => if p.1 = k then (k, v) else p)
  else
    d ++ [(k, v)]

/-- In-place mutation of the record stored under key `k` (the Python code
fetches the object with `d[k]` and assigns to its attributes). -/
def dictModify {α : Type} (d : List (String × α)) (k : String) (f : α → α) : List (String × α) :=
  d.map (fun p => if p.1 = k then (p.1, f p.2) else p)

/-- `d.values()` in insertion order. -/
def dictValues {α : Type} (d : List (String × α)) : List α := d.map Prod.snd

/-! ## Generator state -/

/-- The mutable state of `ConfigGenerator` that the claims are about:
`ip_configs` keyed by canonical id, `original_ip_map` from original name to
canonical id, the two running counters, plus the two diagnostic channels
(the role-conflict warning of `_identify_masters_slaves` and the
"not found in original IP list" warnings of
`_apply_interconnect_properties`). -/
structure GenState where
  ip_configs : List (String × IPConfig)
  original_ip_map : List (String × String)
  master_count : Nat
  slave_count : Nat
  role_conflicts : List String
  dangling_warnings : List String
deriving Repr, DecidableEq

/-- State of a fresh `ConfigGenerator`. -/
def initState : GenState :=
  { ip_configs := []
    original_ip_map := []
    master_count := 0
    slave_count := 0
    role_conflicts := []
    dangling_warnings := [] }

/-- Lexicographic comparison of code-point sequences, as Python compares
strings. -/
def lexLe : List Char → List Char → Bool
  | [], _ => true
  | _ :: _, [] => false
  | a :: as, b :: bs =>
    if a.toNat < b.toNat then true
    else if b.toNat < a.toNat then false
    else lexLe as bs

/-- Python's `<=` on strings: lexicographic by code point. -/
def strLe (a b : String) : Bool := lexLe a.data b.data

/-- The ordering relation used for `sorted()`. -/
def strLeRel (a b : String) : Prop := strLe a b = true

instance : DecidableRel strLeRel := fun a b => instDecidableEqBool (strLe a b) true

/-- `sorted()` on a set of strings (stable sort under Python's
lexicographic string order). -/
def sortNames (l : List String) : List String :=
  List.insertionSort strLeRel l

/-- The loop `for master_ip in sorted(all_masters): ...` — increments the
master counter, maps the original name to `"M" ++ str(count)` and stores a
fresh `IPConfig` with placeholder baseline attributes under that id. -/
def processMasters : List String → GenState → GenState
  | [], st => st
  | nm :: rest, st =>
    let cnt := st.master_count + 1
    let ipName := "M" ++ Nat.repr cnt
    processMasters rest
      { st with
        master_count := cnt
        original_ip_map := dictInsert st.original_ip_map nm ipName
        ip_configs := dictInsert st.ip_configs ipName (IPConfig.mkBasic nm "master" "-" 0 0 "-") }

/-- The loop `for slave_ip in sorted(all_slaves): ...`. -/
def processSlaves : List String → GenState → GenState
  | [], st => st
  | nm :: rest, st =>
    let cnt := st.slave_count + 1
    let ipName := "S" ++ Nat.repr cnt
    processSlaves rest
      { st with
        slave_count := cnt
        original_ip_map := dictInsert st.original_ip_map nm ipName
        ip_configs := dictInsert st.ip_configs ipName (IPConfig.mkBasic nm "slave" "-" 0 0 "-") }

/-- One row of the second pass over the IP sheet: rows with an empty name
are skipped, a name that resolves in `original_ip_map` has its record's
baseline attributes filled in and its `final_*` fields initialised from
them (`final_protocol` has no baseline and is left alone). -/
def backfillRow (st : GenState) (r : IPRow) : GenState :=
  if r.name = "" then st
  else
    match dictLookup st.original_ip_map r.name with
    | some ipName =>
      { st with
        ip_configs := dictModify st.ip_configs ipName (fun c =>
          { c with
            read_write := r.read_write
            original_bit_width := r.bit_width
            original_frequency := r.frequency
            original_clk_domain := r.clk_domain
            final_bit_width := r.bit_width
            final_frequency := r.frequency
            final_clk_domain := r.clk_domain }) }
    | none => st

/-- The second pass over the IP sheet (`for row in ip_sheet.iter_rows...`). -/
def backfill (rows : List IPRow) (st : GenState) : GenState :=
  rows.foldl backfillRow st

/-- `_identify_masters_slaves`, parametrised by an enumeration `em` of the
set of names seen in any `master_ips` list and an enumeration `es` of the
set of names seen in any `slave_ips` list.  The method resets the counters
and `original_ip_map` (but not `ip_configs`), records the role-conflict
warning for the intersection of the two sets (represented sorted, a set
having no inherent order), processes masters then slaves, then re-reads the
IP sheet to back-fill baseline attributes. -/
def identifyMastersSlavesWith (em es : List String) (ipRows : List IPRow)
    (st0 : GenState) : GenState :=
  let conflicts := (sortNames em).filter (fun nm => decide (nm ∈ es))
  let st1 : GenState :=
    { st0 with
      master_count := 0
      slave_count := 0
      original_ip_map := []
      role_conflicts := st0.role_conflicts ++ conflicts }
  let st2 := processMasters (sortNames em) st1
  let st3 := processSlaves (sortNames es) st2
  backfill ipRows st3

/-- The body shared by the two inner loops of
`_apply_interconnect_properties`: resolve the referenced original name; if
it resolves, overwrite the record's derived attributes with the
interconnect's values; otherwise emit the "not found" warning. -/
def applyName (ic : InterconnectConfig) (isMaster : Bool) (st : GenState)
    (nm : String) : GenState :=
  match dictLookup st.original_ip_map nm with
  | some ipName =>
    { st with
      ip_configs := dictModify st.ip_configs ipName (fun c =>
        { c with
          connected_interconnect := ic.name
          final_bit_width := ic.bit_width
          final_frequency := ic.frequency
          final_protocol := ic.protocol
          final_clk_domain := ic.clk_domain }) }
  | none =>
    { st with
      dangling_warnings := st.dangling_warnings ++
        [(if isMaster then "Master IP " else "Slave IP ") ++ nm ++
          " not found in original IP list"] }

/-- Processing one interconnect: its master list first, then its slave
list. -/
def applyInterconnect (st : GenState) (ic : InterconnectConfig) : GenState :=
  let st1 := ic.master_ips.foldl (applyName ic true) st
  ic.slave_ips.foldl (applyName ic false) st1

/-- `_apply_interconnect_properties`: the interconnects in dictionary
(insertion) order. -/
def applyInterconnectProperties (ics : List InterconnectConfig) (st : GenState) : GenState :=
  ics.foldl applyInterconnect st

/-- Loading the interconnect sheet rows into `self.interconnect_configs`
(keyed by interconnect name; a duplicate name overwrites in place). -/
def loadInterconnects (icRows : List InterconnectConfig) : List (String × InterconnectConfig) :=
  icRows.foldl (fun d ic => dictInsert d ic.name ic) []

/-- Concatenation of membership lists. -/
def concatLists : List (List String) → List String
  | [] => []
  | l :: ls => l ++ concatLists ls

/-- Canonical enumeration of `all_masters`, the set of names occurring in
any interconnect's `master_ips` list. -/
def masterNameSet (ics : List InterconnectConfig) : List String :=
  (concatLists (ics.map (fun ic => ic.master_ips))).dedup

/-- Canonical enumeration of `all_slaves`. -/
def slaveNameSet (ics : List InterconnectConfig) : List String :=
  (concatLists (ics.map (fun ic => ic.slave_ips))).dedup

/-- The pipeline on pre-parsed rows, with explicit enumerations of the two
sets (to express independence from set-iteration order). -/
def runPipelineWith (em es : List String) (ipRows : List IPRow)
    (icRows : List InterconnectConfig) : GenState :=
  let ics := dictValues (loadInterconnects icRows)
  applyInterconnectProperties ics (identifyMastersSlavesWith em es ipRows initState)

/-- The pipeline `read_excel` runs on a fresh generator:
load interconnects, identify masters and slaves, apply interconnect
properties. -/
def runPipeline (ipRows : List IPRow) (icRows : List InterconnectConfig) : GenState :=
  let ics := dictValues (loadInterconnects icRows)
  runPipelineWith (masterNameSet ics) (slaveNameSet ics) ipRows icRows

/-! ## Report rendering (`generate_config_file`) -/

/-- Python `str.ljust`. -/
def ljust (s : String) (n : Nat) : String :=
  s ++ String.mk (List.replicate (n - s.length) ' ')

/-- One data row of `config.txt`. -/
def renderRow (p : String × IPConfig) : String :=
  ljust p.1 15 ++
  ljust (if p.2.role = "master" then "MASTER" else "SLAVE") 10 ++
  ljust p.2.read_write 15 ++
  ljust (toString p.2.final_bit_width) 15 ++
  ljust (toString p.2.final_frequency) 15 ++
  ljust p.2.final_protocol 15 ++
  ljust p.2.final_clk_domain 15 ++
  ljust p.2.connected_interconnect 15 ++
  ljust p.2.original_name 15

/-- `sorted(self.ip_configs.items())`: Python sorts the (key, value) pairs
by key (keys are unique, so the comparison never reaches the values). -/
def sortedItems (d : List (String × IPConfig)) : List (String × IPConfig) :=
  List.insertionSort (fun a b => strLeRel a.1 b.1) d

/-- The data rows of the generated report, in output order. -/
def outputLines (st : GenState) : List String :=
  (sortedItems st.ip_configs).map renderRow

/-- The header line of `config.txt`. -/
def headerLine : String :=
  ljust "IP NAME" 15 ++ ljust "TYPE" 10 ++ ljust "READ/WRITE" 15 ++
  ljust "BIT WIDTH" 15 ++ ljust "FREQUENCY" 15 ++ ljust "PROTOCOL" 15 ++
  ljust "CLK DOMAIN" 15 ++ ljust "INTERCONNECT" 15 ++ ljust "ORIGINAL IP" 15

/-- The full text of `config.txt`. -/
def renderOutput (st : GenState) : String :=
  headerLine ++ "\n" ++ String.mk (List.replicate 150 '=') ++ "\n" ++
  String.join ((outputLines st).map (fun l => l ++ "\n"))

/-! ## Closed forms and proof-side definitions -/

/-- The canonical ids `pref ++ repr (c+1), pref ++ repr (c+2), …` handed
out to a block of names when the counter starts at `c`. -/
def idBlock (pref : String) : Nat → List String → List String
  | _, [] => []
  | c, _ :: rest => (pref ++ Nat.repr (c + 1)) :: idBlock pref (c + 1) rest

/-- The `ip_configs` entries created for a block of names. -/
def mkEntries (pref role : String) : Nat → List String → List (String × IPConfig)
  | _, [] => []
  | c, nm :: rest =>
    (pref ++ Nat.repr (c + 1), IPConfig.mkBasic nm role "-" 0 0 "-") ::
      mkEntries pref role (c + 1) rest

/-- The `original_ip_map` assignments made for a block of names. -/
def mkMapPairs (pref : String) : Nat → List String → List (String × String)
  | _, [] => []
  | c, nm :: rest => (nm, pref ++ Nat.repr (c + 1)) :: mkMapPairs pref (c + 1) rest

/-- Folding a sequence of dictionary assignments. -/
def insertAll {α : Type} (d : List (String × α)) (ps : List (String × α)) :
    List (String × α) :=
  ps.foldl (fun d p => dictInsert d p.1 p.2) d

/-- The value of the last assignment to key `k` in a sequence of
assignments, if any. -/
def lastVal {α : Type} : List (String × α) → String → Option α
  | [], _ => none
  | p :: ps, k =>
    match lastVal ps k with
    | some v => some v
    | none => if p.1 = k then some p.2 else none

/-- The canonical id that `original_ip_map` assigns to an original name,
described from the two sorted name blocks: a name in the slave block wins
(it is processed later), otherwise the master block applies. -/
def resolvedId (sm ss : List String) (nm : String) : Option String :=
  if nm ∈ ss then some ("S" ++ Nat.repr (List.indexOf nm ss + 1))
  else if nm ∈ sm then some ("M" ++ Nat.repr (List.indexOf nm sm + 1))
  else none

/-- The interconnects that reference a name in either membership list. -/
def refsName (nm : String) (ic : InterconnectConfig) : Bool :=
  decide (nm ∈ ic.master_ips) || decide (nm ∈ ic.slave_ips)

/-- Decimal digit string of a natural number, most significant digit
first; agrees with `Nat.repr`. -/
def natChars (n : Nat) : List Char :=
  if n < 10 then [Nat.digitChar n]
  else natChars (n / 10) ++ [Nat.digitChar (n % 10)]
decreasing_by
  exact Nat.div_lt_self (by omega) (by omega)

/-- Numeric value of a decimal digit character. -/
def digitVal (c : Char) : Nat := c.toNat - 48

/-- Reading a decimal digit string back into a number. -/
def parseDigits (l : List Char) : Nat :=
  l.foldl (fun a c => 10 * a + digitVal c) 0

/-- The view of a record that identity resolution fixes and later stages
never change: its original name and role. -/
def identView (c : IPConfig) : String × String := (c.original_name, c.role)

/-- The view of a record that property propagation must leave alone:
everything except the `final_*` fields and `connected_interconnect`. -/
def frozenView (c : IPConfig) : String × String × String × Int × Int × String :=
  (c.original_name, c.role, c.read_write, c.original_bit_width,
    c.original_frequency, c.original_clk_domain)

/-- The records whose `original_name` is `nm`. -/
def recordsFor (d : List (String × IPConfig)) (nm : String) : List (String × IPConfig) :=
  d.filter (fun p => p.2.original_name = nm)

/-- A record carries exactly the derived attributes of interconnect `ic`. -/
def hasICValues (c : IPConfig) (ic : InterconnectConfig) : Prop :=
  c.final_bit_width = ic.bit_width ∧ c.final_frequency = ic.frequency ∧
  c.final_protocol = ic.protocol ∧ c.final_clk_domain = ic.clk_domain ∧
  c.connected_interconnect = ic.name

/-! ## Concrete inputs used by witnesses and counterexamples -/

/-- IP table with a single IP `x`. -/
def rowsConflict : List IPRow :=
  [{ name := "x", read_write := "R", bit_width := 32, frequency := 100, clk_domain := "c" }]

/-- One interconnect listing `x` both as master and as slave. -/
def icsConflict : List InterconnectConfig :=
  [{ name := "ic1", bit_width := 64, frequency := 200, protocol := "AXI", clk_domain := "ck",
     master_ips := ["x"], slave_ips := ["x"] }]

/-- IP table with a single IP `a`. -/
def rowsDangling : List IPRow :=
  [{ name := "a", read_write := "R", bit_width := 32, frequency := 100, clk_domain := "c" }]

/-- One interconnect whose master list references `ghost`, a name with no
IP-table row. -/
def icsDangling : List InterconnectConfig :=
  [{ name := "ic1", bit_width := 64, frequency := 200, protocol := "AXI", clk_domain := "ck",
     master_ips := ["ghost"], slave_ips := ["a"] }]

/-- An IP table with one entry, used with an empty interconnect table. -/
def rowsOnlyIP : List IPRow :=
  [{ name := "a", read_write := "R", bit_width := 1, frequency := 2, clk_domain := "c" }]

/-- IP table with entries `ipA` and `ipB`. -/
def rowsTwoIPs : List IPRow :=
  [{ name := "ipA", read_write := "R", bit_width := 32, frequency := 100, clk_domain := "clkA" },
   { name := "ipB", read_write := "W", bit_width := 64, frequency := 200, clk_domain := "clkB" }]

/-- One interconnect referencing only `ipA`; `ipB` stays unreferenced. -/
def icsOnlyA : List InterconnectConfig :=
  [{ name := "busX", bit_width := 128, frequency := 400, protocol := "AXI", clk_domain := "clkX",
     master_ips := ["ipA"], slave_ips := [] }]

/-- The interconnect table of the round-trip scenario. -/
def icsRoundTrip : List InterconnectConfig :=
  [{ name := "busX", bit_width := 128, frequency := 400, protocol := "AXI", clk_domain := "clkX",
     master_ips := ["ipA"], slave_ips := ["ipB"] }]

/-- IP table with the single IP `p`. -/
def rowsP : List IPRow :=
  [{ name := "p", read_write := "R", bit_width := 1, frequency := 2, clk_domain := "c" }]

/-- Two interconnects, both referencing `p`; `icB` comes last in table
order. -/
def icsTwoRefs : List InterconnectConfig :=
  [{ name := "icA", bit_width := 8, frequency := 100, protocol := "AHB", clk_domain := "ca",
     master_ips := ["p"], slave_ips := [] },
   { name := "icB", bit_width := 16, frequency := 300, protocol := "AXI", clk_domain := "cb",
     master_ips := [], slave_ips := ["p"] }]

/-- One interconnect whose master list yields the canonical (insertion
order) enumeration `["b", "a"]`. -/
def icsTwoMasters : List InterconnectConfig :=
  [{ name := "icC", bit_width := 4, frequency := 50, protocol := "APB", clk_domain := "cc",
     master_ips := ["b", "a"], slave_ips := [] }]

/-! ## Decimal digit strings: `Nat.repr` is injective -/

theorem digitVal_digitChar : ∀ d < 10, digitVal (Nat.digitChar d) = d := by decide

theorem toDigitsCore_eq_natChars : ∀ (fuel n : Nat) (acc : List Char), n < fuel →
    Nat.toDigitsCore 10 fuel n acc = natChars n ++ acc := by
  intro fuel
  induction fuel with
  | zero => intro n acc h; omega
  | succ f ih =>
    intro n acc h
    by_cases h10 : n / 10 = 0
    · have hn : n < 10 := by omega
      rw [natChars, if_pos hn]
      simp only [Nat.toDigitsCore, h10, if_true]
      rw [Nat.mod_eq_of_lt hn]
      simp
    · have hn : ¬ n < 10 := by omega
      rw [natChars, if_neg hn]
      simp only [Nat.toDigitsCore, h10, if_false]
      rw [ih (n / 10) _ (by omega)]
      simp

theorem parse_natChars_aux : ∀ (n a : Nat),
    (natChars n).foldl (fun a c => 10 * a + digitVal c) a =
      a * 10 ^ (natChars n).length + n := by
  intro n
  induction n using Nat.strong_induction_on with
  | _ n ih =>
    intro a
    by_cases hn : n < 10
    · rw [natChars, if_pos hn]
      simp [digitVal_digitChar n hn]
      omega
    · rw [natChars, if_neg hn]
      rw [List.foldl_append]
      rw [ih (n / 10) (Nat.div_lt_self (by omega) (by omega))]
      simp [digitVal_digitChar (n % 10) (Nat.mod_lt n (by omega))]
      ring_nf
      omega

theorem parse_natChars (n : Nat) : parseDigits (natChars n) = n := by
  have := parse_natChars_aux n 0
  simpa [parseDigits] using this

theorem natChars_injective {m n : Nat} (h : natChars m = natChars n) : m = n := by
  have := parse_natChars m
  rw [h, parse_natChars] at this
  omega

theorem repr_eq_natChars (n : Nat) : Nat.repr n = String.mk (natChars n) := by
  have h := toDigitsCore_eq_natChars (n + 1) n [] (by omega)
  simp [Nat.repr, Nat.toDigits, List.asString, h]

theorem nat_repr_injective {m n : Nat} (h : Nat.repr m = Nat.repr n) : m = n := by
  rw [repr_eq_natChars, repr_eq_natChars] at h
  exact natChars_injective (by injection h)

theorem data_append (a b : String) : (a ++ b).data = a.data ++ b.data := by
  cases a; cases b; rfl

theorem prefix_MS_ne (a b : String) : ("M" ++ a) ≠ ("S" ++ b) := by
  intro h
  have : ("M" ++ a).data = ("S" ++ b).data := by rw [h]
  rw [data_append, data_append] at this
  simp at this

theorem prefix_repr_inj (pref : String) {i j : Nat}
    (h : pref ++ Nat.repr i = pref ++ Nat.repr j) : i = j := by
  have hd : (pref ++ Nat.repr i).data = (pref ++ Nat.repr j).data := by rw [h]
  rw [data_append, data_append] at hd
  have hr : (Nat.repr i).data = (Nat.repr j).data := List.append_cancel_left hd
  apply nat_repr_injective
  cases hi : Nat.repr i
  cases hj : Nat.repr j
  rw [hi, hj] at hr
  simp only at hr
  rw [hr]

/-! ## Python's string order -/

theorem char_toNat_inj {a b : Char} (h : a.toNat = b.toNat) : a = b :=
  Char.ext (UInt32.ext h)

theorem lexLe_total : ∀ as bs, lexLe as bs = true ∨ lexLe bs as = true := by
  intro as
  induction as with
  | nil => intro bs; left; rfl
  | cons a as ih =>
    intro bs
    cases bs with
    | nil => right; rfl
    | cons b bs =>
      rcases Nat.lt_trichotomy a.toNat b.toNat with h | h | h
      · left; simp [lexLe, h]
      · rcases ih bs with h2 | h2
        · left; simp [lexLe, h, h2]
        · right; simp [lexLe, h, h2]
      · right; simp [lexLe, h]

theorem lexLe_antisymm : ∀ as bs, lexLe as bs = true → lexLe bs as = true → as = bs := by
  intro as
  induction as with
  | nil =>
    intro bs _ h2
    cases bs with
    | nil => rfl
    | cons b bs => simp [lexLe] at h2
  | cons a as ih =>
    intro bs h1 h2
    cases bs with
    | nil => simp [lexLe] at h1
    | cons b bs =>
      rcases Nat.lt_trichotomy a.toNat b.toNat with h | h | h
      · simp [lexLe, h, Nat.lt_asymm h] at h2
      · have hne1 : ¬ a.toNat < b.toNat := by omega
        have hne2 : ¬ b.toNat < a.toNat := by omega
        simp [lexLe, hne1, hne2] at h1 h2
        rw [char_toNat_inj h, ih bs h1 h2]
      · simp [lexLe, h, Nat.lt_asymm h] at h1

theorem lexLe_trans : ∀ as bs cs, lexLe as bs = true → lexLe bs cs = true →
    lexLe as cs = true := by
  intro as
  induction as with
  | nil => intro bs cs _ _; rfl
  | cons a as ih =>
    intro bs cs h1 h2
    cases bs with
    | nil => simp [lexLe] at h1
    | cons b bs =>
      cases cs with
      | nil => simp [lexLe] at h2
      | cons c cs =>
        by_cases hab : a.toNat < b.toNat
        · by_cases hbc : b.toNat < c.toNat
          · simp [lexLe, show a.toNat < c.toNat by omega]
          · by_cases hcb : c.toNat < b.toNat
            · simp [lexLe, hbc, hcb] at h2
            · simp [lexLe, show a.toNat < c.toNat by omega]
        · by_cases hba : b.toNat < a.toNat
          · simp [lexLe, hab, hba] at h1
          · by_cases hbc : b.toNat < c.toNat
            · simp [lexLe, show a.toNat < c.toNat by omega]
            · by_cases hcb : c.toNat < b.toNat
              · simp [lexLe, hbc, hcb] at h2
              · have hac1 : ¬ a.toNat < c.toNat := by omega
                have hac2 : ¬ c.toNat < a.toNat := by omega
                simp [lexLe, hab, hba] at h1
                simp [lexLe, hbc, hcb] at h2
                simp [lexLe, hac1, hac2, ih bs cs h1 h2]

theorem string_data_inj {a b : String} (h : a.data = b.data) : a = b := by
  cases a; cases b; simp only at h; rw [h]

theorem sortNames_perm (l : List String) : (sortNames l).Perm l :=
  List.perm_insertionSort strLeRel l

theorem sortNames_sorted (l : List String) : (sortNames l).Sorted strLeRel := by
  haveI : IsTotal String strLeRel := ⟨fun a b => lexLe_total a.data b.data⟩
  haveI : IsTrans String strLeRel :=
    ⟨fun a b c h1 h2 => lexLe_trans a.data b.data c.data h1 h2⟩
  exact List.sorted_insertionSort strLeRel l

theorem sortNames_eq_of_perm {l1 l2 : List String} (h : l1.Perm l2) :
    sortNames l1 = sortNames l2 := by
  haveI : IsAntisymm String strLeRel :=
    ⟨fun a b h1 h2 => string_data_inj (lexLe_antisymm a.data b.data h1 h2)⟩
  exact List.eq_of_perm_of_sorted
    ((sortNames_perm l1).trans (h.trans (sortNames_perm l2).symm))
    (sortNames_sorted l1) (sortNames_sorted l2)

theorem mem_sortNames {nm : String} {l : List String} : nm ∈ sortNames l ↔ nm ∈ l :=
  (sortNames_perm l).mem_iff

theorem sortNames_nodup {l : List String} (h : l.Nodup) : (sortNames l).Nodup :=
  ((sortNames_perm l).nodup_iff).mpr h

/-! ## Dictionary lemmas -/

theorem dictLookup_append {α : Type} (d1 d2 : List (String × α)) (k : String) :
    dictLookup (d1 ++ d2) k =
      match dictLookup d1 k with
      | some v => some v
      | none => dictLookup d2 k := by
  induction d1 with
  | nil => simp [dictLookup]
  | cons p d1 ih =>
    by_cases hp : p.1 = k
    · simp [dictLookup, hp]
    · simp only [List.cons_append, dictLookup, if_neg hp]
      exact ih

theorem dictLookup_overwrite {α : Type} (d : List (String × α)) (k k' : String) (v : α) :
    dictLookup (d.map (fun p => if p.1 = k then (k, v) else p)) k' =
      if k' = k then (dictLookup d k).map (fun _ => v) else dictLookup d k' := by
  induction d with
  | nil => simp [dictLookup]
  | cons p d ih =>
    by_cases hp : p.1 = k
    · by_cases hk : k' = k
      · simp [dictLookup, hp, hk]
      · have : ¬ k = k' := fun h => hk h.symm
        simp [dictLookup, hp, hk, this, ih]
    · by_cases hp' : p.1 = k'
      · have hk : ¬ k' = k := fun h => hp (h ▸ hp')
        simp [dictLookup, hp, hp', hk]
      · simp [dictLookup, hp, hp', ih]

theorem dictLookup_insert {α : Type} (d : List (String × α)) (k k' : String) (v : α) :
    dictLookup (dictInsert d k v) k' = if k' = k then some v else dictLookup d k' := by
  unfold dictInsert
  by_cases hs : (dictLookup d k).isSome
  · rw [if_pos hs, dictLookup_overwrite]
    by_cases hk : k' = k
    · rcases Option.isSome_iff_exists.mp hs with ⟨w, hw⟩
      simp [hk, hw]
    · simp [hk]
  · rw [if_neg hs, dictLookup_append]
    have hnone : dictLookup d k = none := Option.not_isSome_iff_eq_none.mp hs
    by_cases hk : k' = k
    · subst hk
      simp [hnone, dictLookup]
    · have hk2 : ¬ k = k' := fun h => hk h.symm
      cases hd : dictLookup d k'
      · simp [dictLookup, hd, hk, hk2]
      · simp [hd, hk]

theorem dictLookup_modify {α : Type} (d : List (String × α)) (k k' : String) (f : α → α) :
    dictLookup (dictModify d k f) k' =
      if k' = k then (dictLookup d k).map f else dictLookup d k' := by
  unfold dictModify
  induction d with
  | nil => simp [dictLookup]
  | cons p d ih =>
    by_cases hp : p.1 = k
    · by_cases hk : k' = k
      · subst hk
        simp [dictLookup, hp]
      · have hp2 : ¬ p.1 = k' := by rw [hp]; exact fun h => hk h.symm
        have hk2 : ¬ k = k' := fun h => hk h.symm
        simp [dictLookup, hp, hp2, hk, hk2, ih]
    · by_cases hk : k' = k
      · subst hk
        simp [dictLookup, hp, ih]
      · by_cases hp' : p.1 = k'
        · simp [dictLookup, hp, hp', hk]
        · simp [dictLookup, hp, hp', hk, ih]

theorem dictLookup_isSome_congr {α β : Type} {d1 : List (String × α)} {d2 : List (String × β)}
    (h : d1.map Prod.fst = d2.map Prod.fst) (k : String) :
    (dictLookup d1 k).isSome = (dictLookup d2 k).isSome := by
  induction d1 generalizing d2 with
  | nil =>
    cases d2 with
    | nil => rfl
    | cons q d2 => simp at h
  | cons p d1 ih =>
    cases d2 with
    | nil => simp at h
    | cons q d2 =>
      simp only [List.map_cons, List.cons.injEq] at h
      by_cases hp : p.1 = k
      · simp [dictLookup, hp, h.1 ▸ hp]
      · have hq : ¬ q.1 = k := h.1 ▸ hp
        simp [dictLookup, hp, hq, ih h.2]

theorem lookup_insertAll {α : Type} (ps : List (String × α)) (d : List (String × α))
    (k : String) :
    dictLookup (insertAll d ps) k =
      match lastVal ps k with
      | some v => some v
      | none => dictLookup d k := by
  induction ps generalizing d with
  | nil => simp [insertAll, lastVal]
  | cons p ps ih =>
    show dictLookup (insertAll (dictInsert d p.1 p.2) ps) k = _
    rw [ih]
    cases hl : lastVal ps k
    · simp only [lastVal, hl, dictLookup_insert]
      by_cases hk : k = p.1
      · simp [hk]
      · have : ¬ p.1 = k := fun h => hk h.symm
        simp [hk, this]
    · simp [lastVal, hl]

/-! ## Shape of the identity-resolution stage -/

theorem lastVal_mkMapPairs_of_not_mem (pref : String) {nm : String} :
    ∀ (names : List String) (c : Nat), nm ∉ names →
    lastVal (mkMapPairs pref c names) nm = none := by
  intro names
  induction names with
  | nil => intro c _; rfl
  | cons x rest ih =>
    intro c h
    simp only [List.mem_cons, not_or] at h
    rw [mkMapPairs, lastVal, ih (c + 1) h.2]
    have : ¬ x = nm := fun he => h.1 he.symm
    simp [this]

theorem lastVal_mkMapPairs_of_mem (pref : String) {nm : String} :
    ∀ (names : List String) (c : Nat), names.Nodup → nm ∈ names →
    lastVal (mkMapPairs pref c names) nm =
      some (pref ++ Nat.repr (c + List.indexOf nm names + 1)) := by
  intro names
  induction names with
  | nil => intro c _ h; simp at h
  | cons x rest ih =>
    intro c hnd h
    rcases List.mem_cons.mp h with hx | hr
    · have hnotin : nm ∉ rest := hx ▸ (List.nodup_cons.mp hnd).1
      rw [mkMapPairs, lastVal, lastVal_mkMapPairs_of_not_mem pref rest (c + 1) hnotin]
      rw [hx, List.indexOf_cons_self]
      simp
    · have hx : ¬ nm = x := fun he => (List.nodup_cons.mp hnd).1 (he ▸ hr)
      rw [mkMapPairs, lastVal, ih (c + 1) (List.nodup_cons.mp hnd).2 hr]
      rw [List.indexOf_cons_ne rest (fun he => hx he.symm)]
      have : c + (List.indexOf nm rest).succ + 1 = c + 1 + List.indexOf nm rest + 1 := by
        omega
      rw [this]

theorem dictLookup_mkEntries_at (pref role : String) :
    ∀ (names : List String) (c i : Nat) (h : i < names.length),
    dictLookup (mkEntries pref role c names) (pref ++ Nat.repr (c + i + 1)) =
      some (IPConfig.mkBasic (names.get ⟨i, h⟩) role "-" 0 0 "-") := by
  intro names
  induction names with
  | nil => intro c i h; simp at h
  | cons x rest ih =>
    intro c i h
    cases i with
    | zero => simp [mkEntries, dictLookup]
    | succ i =>
      have hne : ¬ (pref ++ Nat.repr (c + 1) = pref ++ Nat.repr (c + (i + 1) + 1)) :=
        fun he => by have := prefix_repr_inj pref he; omega
      rw [mkEntries, dictLookup, if_neg hne]
      have harith : c + 1 + i + 1 = c + (i + 1) + 1 := by omega
      have := ih (c + 1) i (by simpa using Nat.lt_of_succ_lt_succ h)
      rw [harith] at this
      exact this

theorem dictLookup_mkEntries_none (pref pref' role : String)
    (hpre : ∀ a b : String, ¬ (pref ++ a = pref' ++ b)) :
    ∀ (names : List String) (c : Nat) (s : String),
    dictLookup (mkEntries pref role c names) (pref' ++ s) = none := by
  intro names
  induction names with
  | nil => intro c s; rfl
  | cons x rest ih =>
    intro c s
    rw [mkEntries, dictLookup, if_neg (hpre (Nat.repr (c + 1)) s)]
    exact ih (c + 1) s

theorem mkEntries_keys (pref role : String) :
    ∀ (names : List String) (c : Nat),
    (mkEntries pref role c names).map Prod.fst = idBlock pref c names := by
  intro names
  induction names with
  | nil => intro c; rfl
  | cons x rest ih => intro c; simp [mkEntries, idBlock, ih (c + 1)]

theorem idBlock_eq_range (pref : String) :
    ∀ (names : List String) (c : Nat),
    idBlock pref c names =
      (List.range names.length).map (fun i => pref ++ Nat.repr (c + i + 1)) := by
  intro names
  induction names with
  | nil => intro c; rfl
  | cons x rest ih =>
    intro c
    rw [idBlock, ih (c + 1)]
    rw [List.length_cons, List.range_succ_eq_map]
    simp only [List.map_cons, List.map_map]
    congr 1
    apply List.map_congr_left
    intro i _
    simp only [Function.comp]
    have harith : c + 1 + i + 1 = c + i.succ + 1 := by omega
    rw [harith]

theorem mkEntries_names (pref role : String) :
    ∀ (names : List String) (c : Nat),
    (mkEntries pref role c names).map (fun p => p.2.original_name) = names := by
  intro names
  induction names with
  | nil => intro c; rfl
  | cons x rest ih =>
    intro c
    simp [mkEntries, IPConfig.mkBasic, ih (c + 1)]

theorem mkEntries_role (pref role : String) :
    ∀ (names : List String) (c : Nat) (p : String × IPConfig),
    p ∈ mkEntries pref role c names → p.2.role = role := by
  intro names
  induction names with
  | nil => intro c p h; simp [mkEntries] at h
  | cons x rest ih =>
    intro c p h
    rw [mkEntries] at h
    rcases List.mem_cons.mp h with h | h
    · rw [h]
      rfl
    · exact ih (c + 1) p h

theorem processMasters_spec :
    ∀ (names : List String) (st : GenState),
    (∀ i, i < names.length →
      dictLookup st.ip_configs ("M" ++ Nat.repr (st.master_count + i + 1)) = none) →
    processMasters names st =
      { st with
        master_count := st.master_count + names.length
        original_ip_map := insertAll st.original_ip_map (mkMapPairs "M" st.master_count names)
        ip_configs := st.ip_configs ++ mkEntries "M" "master" st.master_count names } := by
  intro names
  induction names with
  | nil =>
    intro st _
    simp [processMasters, mkMapPairs, mkEntries, insertAll]
  | cons nm rest ih =>
    intro st hfresh
    have h0 : dictLookup st.ip_configs ("M" ++ Nat.repr (st.master_count + 1)) = none := by
      have := hfresh 0 (by simp)
      rwa [show st.master_count + 0 + 1 = st.master_count + 1 by omega] at this
    have hins :
        dictInsert st.ip_configs ("M" ++ Nat.repr (st.master_count + 1))
            (IPConfig.mkBasic nm "master" "-" 0 0 "-") =
          st.ip_configs ++
            [("M" ++ Nat.repr (st.master_count + 1), IPConfig.mkBasic nm "master" "-" 0 0 "-")] := by
      unfold dictInsert
      simp [h0]
    rw [processMasters]
    rw [ih]
    · simp only [hins]
      simp only [List.append_assoc, List.length_cons]
      rw [mkMapPairs, mkEntries]
      simp only [GenState.mk.injEq, and_true, true_and]
      refine ⟨by simp, rfl, by omega⟩
    · intro i hi
      simp only [hins, dictLookup_append]
      have h1 : dictLookup st.ip_configs
          ("M" ++ Nat.repr (st.master_count + 1 + i + 1)) = none := by
        have := hfresh (i + 1) (by simpa using Nat.succ_lt_succ hi)
        rwa [show st.master_count + (i + 1) + 1 = st.master_count + 1 + i + 1 by omega] at this
      rw [h1]
      have hne : ¬ ("M" ++ Nat.repr (st.master_count + 1) =
          "M" ++ Nat.repr (st.master_count + 1 + i + 1)) :=
        fun he => by have := prefix_repr_inj "M" he; omega
      simp [dictLookup, hne]

theorem processSlaves_spec :
    ∀ (names : List String) (st : GenState),
    (∀ i, i < names.length →
      dictLookup st.ip_configs ("S" ++ Nat.repr (st.slave_count + i + 1)) = none) →
    processSlaves names st =
      { st with
        slave_count := st.slave_count + names.length
        original_ip_map := insertAll st.original_ip_map (mkMapPairs "S" st.slave_count names)
        ip_configs := st.ip_configs ++ mkEntries "S" "slave" st.slave_count names } := by
  intro names
  induction names with
  | nil =>
    intro st _
    simp [processSlaves, mkMapPairs, mkEntries, insertAll]
  | cons nm rest ih =>
    intro st hfresh
    have h0 : dictLookup st.ip_configs ("S" ++ Nat.repr (st.slave_count + 1)) = none := by
      have := hfresh 0 (by simp)
      rwa [show st.slave_count + 0 + 1 = st.slave_count + 1 by omega] at this
    have hins :
        dictInsert st.ip_configs ("S" ++ Nat.repr (st.slave_count + 1))
            (IPConfig.mkBasic nm "slave" "-" 0 0 "-") =
          st.ip_configs ++
            [("S" ++ Nat.repr (st.slave_count + 1), IPConfig.mkBasic nm "slave" "-" 0 0 "-")] := by
      unfold dictInsert
      simp [h0]
    rw [processSlaves]
    rw [ih]
    · simp only [hins]
      simp only [List.append_assoc, List.length_cons]
      rw [mkMapPairs, mkEntries]
      simp only [GenState.mk.injEq, and_true, true_and]
      refine ⟨by simp, rfl, by omega⟩
    · intro i hi
      simp only [hins, dictLookup_append]
      have h1 : dictLookup st.ip_configs
          ("S" ++ Nat.repr (st.slave_count + 1 + i + 1)) = none := by
        have := hfresh (i + 1) (by simpa using Nat.succ_lt_succ hi)
        rwa [show st.slave_count + (i + 1) + 1 = st.slave_count + 1 + i + 1 by omega] at this
      rw [h1]
      have hne : ¬ ("S" ++ Nat.repr (st.slave_count + 1) =
          "S" ++ Nat.repr (st.slave_count + 1 + i + 1)) :=
        fun he => by have := prefix_repr_inj "S" he; omega
      simp [dictLookup, hne]

theorem identify_unfold (em es : List String) (ipRows : List IPRow) :
    identifyMastersSlavesWith em es ipRows initState =
      backfill ipRows
        { ip_configs :=
            mkEntries "M" "master" 0 (sortNames em) ++ mkEntries "S" "slave" 0 (sortNames es)
          original_ip_map :=
            insertAll (insertAll [] (mkMapPairs "M" 0 (sortNames em)))
              (mkMapPairs "S" 0 (sortNames es))
          master_count := (sortNames em).length
          slave_count := (sortNames es).length
          role_conflicts := (sortNames em).filter (fun nm => decide (nm ∈ es))
          dangling_warnings := [] } := by
  unfold identifyMastersSlavesWith
  dsimp only
  rw [processMasters_spec (sortNames em) _ (by intro i _; rfl)]
  rw [processSlaves_spec (sortNames es) _ ?hs]
  case hs =>
    intro i _
    simp only [initState, List.nil_append]
    exact dictLookup_mkEntries_none "M" "S" "master" prefix_MS_ne (sortNames em) 0 _
  simp [initState]

theorem backfill_cons (r : IPRow) (rows : List IPRow) (st : GenState) :
    backfill (r :: rows) st = backfill rows (backfillRow st r) := rfl

theorem backfillRow_frame (st : GenState) (r : IPRow) :
    (backfillRow st r).original_ip_map = st.original_ip_map ∧
    (backfillRow st r).master_count = st.master_count ∧
    (backfillRow st r).slave_count = st.slave_count ∧
    (backfillRow st r).role_conflicts = st.role_conflicts ∧
    (backfillRow st r).dangling_warnings = st.dangling_warnings := by
  unfold backfillRow
  by_cases h : r.name = ""
  · simp [h]
  · cases hx : dictLookup st.original_ip_map r.name <;> simp [h, hx]

theorem backfill_frame (rows : List IPRow) :
    ∀ (st : GenState),
    (backfill rows st).original_ip_map = st.original_ip_map ∧
    (backfill rows st).master_count = st.master_count ∧
    (backfill rows st).slave_count = st.slave_count ∧
    (backfill rows st).role_conflicts = st.role_conflicts ∧
    (backfill rows st).dangling_warnings = st.dangling_warnings := by
  induction rows with
  | nil => intro st; exact ⟨rfl, rfl, rfl, rfl, rfl⟩
  | cons r rows ih =>
    intro st
    rw [backfill_cons]
    rcases ih (backfillRow st r) with ⟨h1, h2, h3, h4, h5⟩
    rcases backfillRow_frame st r with ⟨g1, g2, g3, g4, g5⟩
    exact ⟨h1.trans g1, h2.trans g2, h3.trans g3, h4.trans g4, h5.trans g5⟩

theorem applyName_frame (ic : InterconnectConfig) (b : Bool) (st : GenState) (nm : String) :
    (applyName ic b st nm).original_ip_map = st.original_ip_map ∧
    (applyName ic b st nm).master_count = st.master_count ∧
    (applyName ic b st nm).slave_count = st.slave_count ∧
    (applyName ic b st nm).role_conflicts = st.role_conflicts := by
  unfold applyName
  cases hx : dictLookup st.original_ip_map nm <;> simp [hx]

theorem foldNames_frame (ic : InterconnectConfig) (b : Bool) :
    ∀ (l : List String) (st : GenState),
    (l.foldl (applyName ic b) st).original_ip_map = st.original_ip_map ∧
    (l.foldl (applyName ic b) st).master_count = st.master_count ∧
    (l.foldl (applyName ic b) st).slave_count = st.slave_count ∧
    (l.foldl (applyName ic b) st).role_conflicts = st.role_conflicts := by
  intro l
  induction l with
  | nil => intro st; exact ⟨rfl, rfl, rfl, rfl⟩
  | cons nm l ih =>
    intro st
    rcases ih (applyName ic b st nm) with ⟨h1, h2, h3, h4⟩
    rcases applyName_frame ic b st nm with ⟨g1, g2, g3, g4⟩
    exact ⟨h1.trans g1, h2.trans g2, h3.trans g3, h4.trans g4⟩

theorem applyInterconnect_frame (st : GenState) (ic : InterconnectConfig) :
    (applyInterconnect st ic).original_ip_map = st.original_ip_map ∧
    (applyInterconnect st ic).master_count = st.master_count ∧
    (applyInterconnect st ic).slave_count = st.slave_count ∧
    (applyInterconnect st ic).role_conflicts = st.role_conflicts := by
  unfold applyInterconnect
  rcases foldNames_frame ic false ic.slave_ips (ic.master_ips.foldl (applyName ic true) st) with
    ⟨h1, h2, h3, h4⟩
  rcases foldNames_frame ic true ic.master_ips st with ⟨g1, g2, g3, g4⟩
  exact ⟨h1.trans g1, h2.trans g2, h3.trans g3, h4.trans g4⟩

theorem applyICs_frame (ics : List InterconnectConfig) :
    ∀ (st : GenState),
    (applyInterconnectProperties ics st).original_ip_map = st.original_ip_map ∧
    (applyInterconnectProperties ics st).master_count = st.master_count ∧
    (applyInterconnectProperties ics st).slave_count = st.slave_count ∧
    (applyInterconnectProperties ics st).role_conflicts = st.role_conflicts := by
  induction ics with
  | nil => intro st; exact ⟨rfl, rfl, rfl, rfl⟩
  | cons ic ics ih =>
    intro st
    rcases ih (applyInterconnect st ic) with ⟨h1, h2, h3, h4⟩
    rcases applyInterconnect_frame st ic with ⟨g1, g2, g3, g4⟩
    exact ⟨h1.trans g1, h2.trans g2, h3.trans g3, h4.trans g4⟩

theorem dictModify_map_view {α β : Type} (view : α → β) (d : List (String × α)) (k : String)
    (f : α → α) (hf : ∀ c, view (f c) = view c) :
    (dictModify d k f).map (fun p => (p.1, view p.2)) = d.map (fun p => (p.1, view p.2)) := by
  unfold dictModify
  rw [List.map_map]
  apply List.map_congr_left
  intro p _
  by_cases hp : p.1 = k <;> simp [hp, hf]

theorem dictLookup_map_view {α β : Type} (view : α → β) (d : List (String × α)) (k : String) :
    dictLookup (d.map (fun p => (p.1, view p.2))) k = (dictLookup d k).map view := by
  induction d with
  | nil => rfl
  | cons p d ih =>
    by_cases hp : p.1 = k <;> simp [dictLookup, hp, ih]

theorem backfill_view (rows : List IPRow) :
    ∀ (st : GenState),
    (backfill rows st).ip_configs.map (fun p => (p.1, identView p.2)) =
      st.ip_configs.map (fun p => (p.1, identView p.2)) := by
  induction rows with
  | nil => intro st; rfl
  | cons r rows ih =>
    intro st
    rw [backfill_cons, ih]
    unfold backfillRow
    by_cases h : r.name = ""
    · simp [h]
    · cases hx : dictLookup st.original_ip_map r.name
      · simp [h, hx]
      · simp only [h, if_false, hx]
        exact dictModify_map_view identView st.ip_configs _ _ (fun c => rfl)

theorem foldNames_view (ic : InterconnectConfig) (b : Bool) :
    ∀ (l : List String) (st : GenState),
    (l.foldl (applyName ic b) st).ip_configs.map (fun p => (p.1, frozenView p.2)) =
      st.ip_configs.map (fun p => (p.1, frozenView p.2)) := by
  intro l
  induction l with
  | nil => intro st; rfl
  | cons nm l ih =>
    intro st
    rw [List.foldl_cons, ih]
    unfold applyName
    cases hx : dictLookup st.original_ip_map nm
    · simp [hx]
    · simp only [hx]
      exact dictModify_map_view frozenView st.ip_configs _ _ (fun c => rfl)

theorem applyICs_view (ics : List InterconnectConfig) :
    ∀ (st : GenState),
    (applyInterconnectProperties ics st).ip_configs.map (fun p => (p.1, frozenView p.2)) =
      st.ip_configs.map (fun p => (p.1, frozenView p.2)) := by
  induction ics with
  | nil => intro st; rfl
  | cons ic ics ih =>
    intro st
    show (applyInterconnectProperties ics (applyInterconnect st ic)).ip_configs.map _ = _
    rw [ih]
    unfold applyInterconnect
    rw [foldNames_view, foldNames_view]

theorem map_create_eq_resolved {sm ss : List String} (hsm : sm.Nodup) (hss : ss.Nodup)
    (nm : String) :
    dictLookup (insertAll (insertAll [] (mkMapPairs "M" 0 sm)) (mkMapPairs "S" 0 ss)) nm =
      resolvedId sm ss nm := by
  rw [lookup_insertAll]
  by_cases hs : nm ∈ ss
  · rw [lastVal_mkMapPairs_of_mem "S" ss 0 hss hs]
    simp [resolvedId, hs]
  · rw [lastVal_mkMapPairs_of_not_mem "S" ss 0 hs]
    rw [lookup_insertAll]
    by_cases hm : nm ∈ sm
    · rw [lastVal_mkMapPairs_of_mem "M" sm 0 hsm hm]
      simp [resolvedId, hs, hm]
    · rw [lastVal_mkMapPairs_of_not_mem "M" sm 0 hm]
      simp [resolvedId, hs, hm, dictLookup]

theorem resolvedId_inj (sm ss : List String) {n1 n2 id : String}
    (h1 : resolvedId sm ss n1 = some id) (h2 : resolvedId sm ss n2 = some id) :
    n1 = n2 := by
  unfold resolvedId at h1 h2
  by_cases a1 : n1 ∈ ss
  · by_cases a2 : n2 ∈ ss
    · simp only [a1, if_pos, Option.some.injEq] at h1
      simp only [a2, if_pos, Option.some.injEq] at h2
      rw [← h2] at h1
      have := prefix_repr_inj "S" h1
      exact (List.indexOf_inj a1 a2).mp (by omega)
    · simp only [a2, if_neg, ite_false] at h2
      by_cases b2 : n2 ∈ sm
      · simp only [b2, if_pos, Option.some.injEq] at h2
        simp only [a1, if_pos, Option.some.injEq] at h1
        rw [← h2] at h1
        exact absurd h1.symm (prefix_MS_ne _ _)
      · simp [b2] at h2
  · by_cases b1 : n1 ∈ sm
    · by_cases a2 : n2 ∈ ss
      · simp only [a1, ite_false, b1, if_pos, Option.some.injEq] at h1
        simp only [a2, if_pos, Option.some.injEq] at h2
        rw [← h2] at h1
        exact absurd h1 (prefix_MS_ne _ _)
      · by_cases b2 : n2 ∈ sm
        · simp only [a1, ite_false, b1, if_pos, Option.some.injEq] at h1
          simp only [a2, ite_false, b2, if_pos, Option.some.injEq] at h2
          rw [← h2] at h1
          have := prefix_repr_inj "M" h1
          exact (List.indexOf_inj b1 b2).mp (by omega)
        · simp [a2, b2] at h2
    · simp [a1, b1] at h1

theorem masterNameSet_nodup (ics : List InterconnectConfig) : (masterNameSet ics).Nodup :=
  List.nodup_dedup _

theorem slaveNameSet_nodup (ics : List InterconnectConfig) : (slaveNameSet ics).Nodup :=
  List.nodup_dedup _

theorem runPipeline_map (ipRows : List IPRow) (icRows : List InterconnectConfig) (nm : String) :
    dictLookup (runPipeline ipRows icRows).original_ip_map nm =
      resolvedId (sortNames (masterNameSet (dictValues (loadInterconnects icRows))))
        (sortNames (slaveNameSet (dictValues (loadInterconnects icRows)))) nm := by
  unfold runPipeline runPipelineWith
  dsimp only
  rw [(applyICs_frame _ _).1, identify_unfold, (backfill_frame _ _).1]
  dsimp only
  rw [map_create_eq_resolved (sortNames_nodup (masterNameSet_nodup _))
    (sortNames_nodup (slaveNameSet_nodup _)) nm]

theorem view_of_frozen {d1 d2 : List (String × IPConfig)}
    (h : d1.map (fun p => (p.1, frozenView p.2)) = d2.map (fun p => (p.1, frozenView p.2))) :
    d1.map (fun p => (p.1, identView p.2)) = d2.map (fun p => (p.1, identView p.2)) := by
  have h2 := congrArg
    (List.map (fun q : String × (String × String × String × Int × Int × String) =>
      (q.1, q.2.1, q.2.2.1))) h
  simpa [List.map_map, Function.comp, identView, frozenView] using h2

theorem runPipeline_identView (ipRows : List IPRow) (icRows : List InterconnectConfig) :
    (runPipeline ipRows icRows).ip_configs.map (fun p => (p.1, identView p.2)) =
      (mkEntries "M" "master" 0 (sortNames (masterNameSet (dictValues (loadInterconnects icRows)))) ++
        mkEntries "S" "slave" 0
          (sortNames (slaveNameSet (dictValues (loadInterconnects icRows))))).map
        (fun p => (p.1, identView p.2)) := by
  unfold runPipeline runPipelineWith
  dsimp only
  rw [view_of_frozen (applyICs_view _ _), identify_unfold, backfill_view]

theorem lookup_isSome_of_view_eq {β : Type} {view : IPConfig → β}
    {d1 d2 : List (String × IPConfig)}
    (h : d1.map (fun p => (p.1, view p.2)) = d2.map (fun p => (p.1, view p.2))) (k : String) :
    (dictLookup d1 k).isSome = (dictLookup d2 k).isSome := by
  have h1 := dictLookup_map_view view d1 k
  have h2 := dictLookup_map_view view d2 k
  rw [h] at h1
  rw [h2] at h1
  cases hd1 : dictLookup d1 k <;> cases hd2 : dictLookup d2 k <;>
    rw [hd1, hd2] at h1 <;> simp_all

theorem backfill_lookup_unmapped (rows : List IPRow) :
    ∀ (st : GenState) (k : String),
    (∀ nm, dictLookup st.original_ip_map nm ≠ some k) →
    dictLookup (backfill rows st).ip_configs k = dictLookup st.ip_configs k := by
  induction rows with
  | nil => intro st k _; rfl
  | cons r rows ih =>
    intro st k h
    rw [backfill_cons, ih (backfillRow st r) k (by rw [(backfillRow_frame st r).1]; exact h)]
    unfold backfillRow
    by_cases hnm : r.name = ""
    · simp [hnm]
    · cases hx : dictLookup st.original_ip_map r.name
      · simp [hnm, hx]
      · simp only [hnm, if_false, hx]
        rename_i id
        have hk : ¬ k = id := fun he => h r.name (he ▸ hx)
        simp [dictLookup_modify, hk]

theorem foldNames_lookup_unmapped (ic : InterconnectConfig) (b : Bool) :
    ∀ (l : List String) (st : GenState) (k : String),
    (∀ nm, dictLookup st.original_ip_map nm ≠ some k) →
    dictLookup ((l.foldl (applyName ic b) st)).ip_configs k = dictLookup st.ip_configs k := by
  intro l
  induction l with
  | nil => intro st k _; rfl
  | cons x l ih =>
    intro st k h
    rw [List.foldl_cons, ih (applyName ic b st x) k
      (by rw [(applyName_frame ic b st x).1]; exact h)]
    unfold applyName
    cases hx : dictLookup st.original_ip_map x
    · simp [hx]
    · simp only [hx]
      rename_i id
      have hk : ¬ k = id := fun he => h x (he ▸ hx)
      simp [dictLookup_modify, hk]

theorem applyICs_lookup_unmapped (ics : List InterconnectConfig) :
    ∀ (st : GenState) (k : String),
    (∀ nm, dictLookup st.original_ip_map nm ≠ some k) →
    dictLookup (applyInterconnectProperties ics st).ip_configs k =
      dictLookup st.ip_configs k := by
  induction ics with
  | nil => intro st k _; rfl
  | cons ic ics ih =>
    intro st k h
    show dictLookup (applyInterconnectProperties ics (applyInterconnect st ic)).ip_configs k = _
    rw [ih (applyInterconnect st ic) k (by rw [(applyInterconnect_frame st ic).1]; exact h)]
    unfold applyInterconnect
    rw [foldNames_lookup_unmapped ic false _ _ k
      (by rw [(foldNames_frame ic true ic.master_ips st).1]; exact h)]
    rw [foldNames_lookup_unmapped ic true _ _ k h]

/-! ## Last-writer-wins propagation -/

theorem applyName_lookup_isSome (ic : InterconnectConfig) (b : Bool) (st : GenState)
    (x k : String) :
    (dictLookup (applyName ic b st x).ip_configs k).isSome =
      (dictLookup st.ip_configs k).isSome := by
  unfold applyName
  cases hx : dictLookup st.original_ip_map x
  · simp
  · rename_i id
    simp only [dictLookup_modify]
    by_cases hk : k = id <;> simp [hk]

theorem foldNames_lookup_isSome (ic : InterconnectConfig) (b : Bool) :
    ∀ (l : List String) (st : GenState) (k : String),
    (dictLookup ((l.foldl (applyName ic b) st)).ip_configs k).isSome =
      (dictLookup st.ip_configs k).isSome := by
  intro l
  induction l with
  | nil => intro st k; rfl
  | cons x l ih =>
    intro st k
    rw [List.foldl_cons, ih, applyName_lookup_isSome]

theorem foldNames_lookup_preserve (ic : InterconnectConfig) (b : Bool) :
    ∀ (l : List String) (st : GenState) (nm id : String),
    dictLookup st.original_ip_map nm = some id →
    (∀ n', dictLookup st.original_ip_map n' = some id → n' = nm) →
    nm ∉ l →
    dictLookup ((l.foldl (applyName ic b) st)).ip_configs id =
      dictLookup st.ip_configs id := by
  intro l
  induction l with
  | nil => intro st nm id _ _ _; rfl
  | cons x l ih =>
    intro st nm id hmap hinj hnl
    simp only [List.mem_cons, not_or] at hnl
    have hmap1 : (applyName ic b st x).original_ip_map = st.original_ip_map :=
      (applyName_frame ic b st x).1
    rw [List.foldl_cons, ih (applyName ic b st x) nm id (by rw [hmap1]; exact hmap)
      (by rw [hmap1]; exact hinj) hnl.2]
    unfold applyName
    cases hx : dictLookup st.original_ip_map x
    · simp [hx]
    · rename_i id'
      simp only [hx]
      have hne : ¬ id = id' := by
        intro he
        exact hnl.1 ((hinj x (he ▸ hx)).symm)
      simp [dictLookup_modify, hne]

theorem foldNames_lookup_sets (ic : InterconnectConfig) (b : Bool) :
    ∀ (l : List String) (st : GenState) (nm id : String),
    dictLookup st.original_ip_map nm = some id →
    (∀ n', dictLookup st.original_ip_map n' = some id → n' = nm) →
    (dictLookup st.ip_configs id).isSome = true →
    nm ∈ l →
    ∃ c, dictLookup ((l.foldl (applyName ic b) st)).ip_configs id = some c ∧
      hasICValues c ic := by
  intro l
  induction l with
  | nil => intro st nm id _ _ _ h; simp at h
  | cons x l ih =>
    intro st nm id hmap hinj hsome hmem
    have hmap1 : (applyName ic b st x).original_ip_map = st.original_ip_map :=
      (applyName_frame ic b st x).1
    rw [List.foldl_cons]
    by_cases hxl : nm ∈ l
    · exact ih (applyName ic b st x) nm id (by rw [hmap1]; exact hmap)
        (by rw [hmap1]; exact hinj)
        (by rw [applyName_lookup_isSome]; exact hsome) hxl
    · have hx : x = nm := by
        rcases List.mem_cons.mp hmem with h | h
        · exact h.symm
        · exact absurd h hxl
      subst hx
      rcases Option.isSome_iff_exists.mp hsome with ⟨c0, hc0⟩
      have happ : dictLookup (applyName ic b st x).ip_configs id =
          some { c0 with
            connected_interconnect := ic.name
            final_bit_width := ic.bit_width
            final_frequency := ic.frequency
            final_protocol := ic.protocol
            final_clk_domain := ic.clk_domain } := by
        unfold applyName
        simp only [hmap]
        rw [dictLookup_modify]
        simp [hc0]
      rw [foldNames_lookup_preserve ic b l (applyName ic b st x) x id
        (by rw [hmap1]; exact hmap) (by rw [hmap1]; exact hinj) hxl]
      rw [happ]
      exact ⟨_, rfl, rfl, rfl, rfl, rfl, rfl⟩

theorem applyInterconnect_sets (st : GenState) (ic : InterconnectConfig) (nm id : String)
    (hmap : dictLookup st.original_ip_map nm = some id)
    (hinj : ∀ n', dictLookup st.original_ip_map n' = some id → n' = nm)
    (hsome : (dictLookup st.ip_configs id).isSome = true)
    (href : refsName nm ic = true) :
    ∃ c, dictLookup (applyInterconnect st ic).ip_configs id = some c ∧ hasICValues c ic := by
  unfold applyInterconnect
  have hmap1 : (ic.master_ips.foldl (applyName ic true) st).original_ip_map =
      st.original_ip_map := (foldNames_frame ic true ic.master_ips st).1
  by_cases hslv : nm ∈ ic.slave_ips
  · exact foldNames_lookup_sets ic false ic.slave_ips _ nm id
      (by rw [hmap1]; exact hmap) (by rw [hmap1]; exact hinj)
      (by rw [foldNames_lookup_isSome]; exact hsome) hslv
  · have hmst : nm ∈ ic.master_ips := by
      unfold refsName at href
      simp only [Bool.or_eq_true, decide_eq_true_eq] at href
      exact href.resolve_right hslv
    obtain ⟨c, hc, hv⟩ := foldNames_lookup_sets ic true ic.master_ips st nm id
      hmap hinj hsome hmst
    rw [foldNames_lookup_preserve ic false ic.slave_ips _ nm id
      (by rw [hmap1]; exact hmap) (by rw [hmap1]; exact hinj) hslv]
    exact ⟨c, hc, hv⟩

theorem applyInterconnect_preserve (st : GenState) (ic : InterconnectConfig) (nm id : String)
    (hmap : dictLookup st.original_ip_map nm = some id)
    (hinj : ∀ n', dictLookup st.original_ip_map n' = some id → n' = nm)
    (href : refsName nm ic = false) :
    dictLookup (applyInterconnect st ic).ip_configs id = dictLookup st.ip_configs id := by
  unfold applyInterconnect
  unfold refsName at href
  simp only [Bool.or_eq_false_iff, decide_eq_false_iff_not] at href
  have hmap1 : (ic.master_ips.foldl (applyName ic true) st).original_ip_map =
      st.original_ip_map := (foldNames_frame ic true ic.master_ips st).1
  rw [foldNames_lookup_preserve ic false ic.slave_ips _ nm id
    (by rw [hmap1]; exact hmap) (by rw [hmap1]; exact hinj) href.2]
  rw [foldNames_lookup_preserve ic true ic.master_ips st nm id hmap hinj href.1]

theorem applyICs_lookup_isSome (ics : List InterconnectConfig) :
    ∀ (st : GenState) (k : String),
    (dictLookup (applyInterconnectProperties ics st).ip_configs k).isSome =
      (dictLookup st.ip_configs k).isSome := by
  induction ics with
  | nil => intro st k; rfl
  | cons ic ics ih =>
    intro st k
    show (dictLookup (applyInterconnectProperties ics (applyInterconnect st ic)).ip_configs
      k).isSome = _
    rw [ih]
    unfold applyInterconnect
    rw [foldNames_lookup_isSome, foldNames_lookup_isSome]

theorem applyICs_last (ics : List InterconnectConfig) (st : GenState) (nm id : String)
    (L : InterconnectConfig)
    (hmap : dictLookup st.original_ip_map nm = some id)
    (hinj : ∀ n', dictLookup st.original_ip_map n' = some id → n' = nm)
    (hsome : (dictLookup st.ip_configs id).isSome = true)
    (hL : (ics.filter (refsName nm)).getLast? = some L) :
    ∃ c, dictLookup (applyInterconnectProperties ics st).ip_configs id = some c ∧
      hasICValues c L := by
  induction ics using List.reverseRecOn with
  | nil => simp at hL
  | append_singleton ics ic ih =>
    have hfold : applyInterconnectProperties (ics ++ [ic]) st =
        applyInterconnect (applyInterconnectProperties ics st) ic := by
      unfold applyInterconnectProperties
      rw [List.foldl_append]
      rfl
    have hmapA : (applyInterconnectProperties ics st).original_ip_map =
        st.original_ip_map := (applyICs_frame ics st).1
    rw [List.filter_append] at hL
    by_cases href : refsName nm ic = true
    · simp only [List.filter_cons, href, if_pos, List.filter_nil] at hL
      rw [List.getLast?_concat] at hL
      rw [hfold]
      obtain rfl : ic = L := by injection hL
      exact applyInterconnect_sets _ ic nm id (by rw [hmapA]; exact hmap)
        (by rw [hmapA]; exact hinj) (by rw [applyICs_lookup_isSome]; exact hsome) href
    · have href2 : refsName nm ic = false := Bool.not_eq_true _ ▸ eq_false_of_ne_true href
      simp only [List.filter_cons, href2, Bool.false_eq_true, if_false, List.filter_nil,
        List.append_nil] at hL
      obtain ⟨c, hc, hv⟩ := ih hL
      rw [hfold]
      rw [applyInterconnect_preserve _ ic nm id (by rw [hmapA]; exact hmap)
        (by rw [hmapA]; exact hinj) href2]
      exact ⟨c, hc, hv⟩

/-! ## Record existence and membership plumbing -/

theorem lookup_create_S (sm ss : List String) {nm : String} (hs : nm ∈ ss) :
    dictLookup (mkEntries "M" "master" 0 sm ++ mkEntries "S" "slave" 0 ss)
      ("S" ++ Nat.repr (List.indexOf nm ss + 1)) =
      some (IPConfig.mkBasic nm "slave" "-" 0 0 "-") := by
  rw [dictLookup_append]
  have h1 : dictLookup (mkEntries "M" "master" 0 sm)
      ("S" ++ Nat.repr (List.indexOf nm ss + 1)) = none :=
    dictLookup_mkEntries_none "M" "S" "master" prefix_MS_ne sm 0 _
  rw [h1]
  have hlt : List.indexOf nm ss < ss.length := List.indexOf_lt_length.mpr hs
  have h2 := dictLookup_mkEntries_at "S" "slave" ss 0 (List.indexOf nm ss) hlt
  rw [show (0 : Nat) + List.indexOf nm ss + 1 = List.indexOf nm ss + 1 by omega] at h2
  rw [List.indexOf_get] at h2
  exact h2

theorem lookup_create_M (sm ss : List String) {nm : String} (hm : nm ∈ sm) :
    dictLookup (mkEntries "M" "master" 0 sm ++ mkEntries "S" "slave" 0 ss)
      ("M" ++ Nat.repr (List.indexOf nm sm + 1)) =
      some (IPConfig.mkBasic nm "master" "-" 0 0 "-") := by
  rw [dictLookup_append]
  have hlt : List.indexOf nm sm < sm.length := List.indexOf_lt_length.mpr hm
  have h2 := dictLookup_mkEntries_at "M" "master" sm 0 (List.indexOf nm sm) hlt
  rw [show (0 : Nat) + List.indexOf nm sm + 1 = List.indexOf nm sm + 1 by omega] at h2
  rw [List.indexOf_get] at h2
  rw [h2]

theorem mem_concatLists {ls : List (List String)} {l : List String} {nm : String}
    (hl : l ∈ ls) (h : nm ∈ l) : nm ∈ concatLists ls := by
  induction ls with
  | nil => simp at hl
  | cons x ls ih =>
    rw [concatLists, List.mem_append]
    rcases List.mem_cons.mp hl with he | he
    · exact Or.inl (he ▸ h)
    · exact Or.inr (ih he)

theorem mem_masterNameSet {ics : List InterconnectConfig} {ic : InterconnectConfig}
    {nm : String} (hic : ic ∈ ics) (h : nm ∈ ic.master_ips) : nm ∈ masterNameSet ics := by
  unfold masterNameSet
  rw [List.mem_dedup]
  exact mem_concatLists (List.mem_map_of_mem (fun x => x.master_ips) hic) h

theorem mem_slaveNameSet {ics : List InterconnectConfig} {ic : InterconnectConfig}
    {nm : String} (hic : ic ∈ ics) (h : nm ∈ ic.slave_ips) : nm ∈ slaveNameSet ics := by
  unfold slaveNameSet
  rw [List.mem_dedup]
  exact mem_concatLists (List.mem_map_of_mem (fun x => x.slave_ips) hic) h

theorem resolvedId_isSome {sm ss : List String} {nm : String}
    (h : nm ∈ sm ∨ nm ∈ ss) : ∃ id, resolvedId sm ss nm = some id := by
  unfold resolvedId
  by_cases hs : nm ∈ ss
  · exact ⟨_, by rw [if_pos hs]⟩
  · have hm : nm ∈ sm := h.resolve_right hs
    exact ⟨_, by rw [if_neg hs, if_pos hm]⟩

/-! ## No dangling warning is ever emitted -/

theorem applyName_warn (ic : InterconnectConfig) (b : Bool) (st : GenState) (nm : String)
    (h : (dictLookup st.original_ip_map nm).isSome = true) :
    (applyName ic b st nm).dangling_warnings = st.dangling_warnings := by
  unfold applyName
  rcases Option.isSome_iff_exists.mp h with ⟨id, hid⟩
  simp [hid]

theorem foldNames_warn (ic : InterconnectConfig) (b : Bool) :
    ∀ (l : List String) (st : GenState),
    (∀ x ∈ l, (dictLookup st.original_ip_map x).isSome = true) →
    (l.foldl (applyName ic b) st).dangling_warnings = st.dangling_warnings := by
  intro l
  induction l with
  | nil => intro st _; rfl
  | cons x l ih =>
    intro st h
    rw [List.foldl_cons]
    rw [ih (applyName ic b st x)
      (by rw [(applyName_frame ic b st x).1]; exact fun y hy => h y (List.mem_cons_of_mem x hy))]
    exact applyName_warn ic b st x (h x (List.mem_cons_self x l))

theorem applyICs_warn (ics : List InterconnectConfig) :
    ∀ (st : GenState),
    (∀ ic ∈ ics, ∀ x, (x ∈ ic.master_ips ∨ x ∈ ic.slave_ips) →
      (dictLookup st.original_ip_map x).isSome = true) →
    (applyInterconnectProperties ics st).dangling_warnings = st.dangling_warnings := by
  induction ics with
  | nil => intro st _; rfl
  | cons ic ics ih =>
    intro st h
    show (applyInterconnectProperties ics (applyInterconnect st ic)).dangling_warnings = _
    rw [ih (applyInterconnect st ic)
      (by rw [(applyInterconnect_frame st ic).1]
          exact fun ic' hic' x hx => h ic' (List.mem_cons_of_mem ic hic') x hx)]
    unfold applyInterconnect
    have hmap1 : (ic.master_ips.foldl (applyName ic true) st).original_ip_map =
        st.original_ip_map := (foldNames_frame ic true ic.master_ips st).1
    rw [foldNames_warn ic false ic.slave_ips _
      (by rw [hmap1]; exact fun x hx => h ic (List.mem_cons_self ic ics) x (Or.inr hx))]
    rw [foldNames_warn ic true ic.master_ips st
      (fun x hx => h ic (List.mem_cons_self ic ics) x (Or.inl hx))]

theorem runPipeline_no_warnings (ipRows : List IPRow) (icRows : List InterconnectConfig) :
    (runPipeline ipRows icRows).dangling_warnings = [] := by
  unfold runPipeline runPipelineWith
  dsimp only
  rw [applyICs_warn _ _ ?cond]
  · rw [identify_unfold, (backfill_frame _ _).2.2.2.2]
  case cond =>
    intro ic hic x hx
    rw [identify_unfold, (backfill_frame _ _).1]
    dsimp only
    rw [map_create_eq_resolved (sortNames_nodup (masterNameSet_nodup _))
      (sortNames_nodup (slaveNameSet_nodup _)) x]
    have hmem : x ∈ sortNames (masterNameSet (dictValues (loadInterconnects icRows))) ∨
        x ∈ sortNames (slaveNameSet (dictValues (loadInterconnects icRows))) := by
      rcases hx with hx | hx
      · exact Or.inl (mem_sortNames.mpr (mem_masterNameSet hic hx))
      · exact Or.inr (mem_sortNames.mpr (mem_slaveNameSet hic hx))
    rcases resolvedId_isSome hmem with ⟨id, hid⟩
    rw [hid]
    rfl

/-! ## Counting records and keys -/

theorem recordsFor_length_of_view {d1 d2 : List (String × IPConfig)}
    (h : d1.map (fun p => (p.1, identView p.2)) = d2.map (fun p => (p.1, identView p.2)))
    (nm : String) : (recordsFor d1 nm).length = (recordsFor d2 nm).length := by
  unfold recordsFor
  rw [← List.countP_eq_length_filter, ← List.countP_eq_length_filter]
  have h1 := List.countP_map (fun t : String × String × String => decide (t.2.1 = nm))
    (fun p : String × IPConfig => (p.1, identView p.2)) d1
  have h2 := List.countP_map (fun t : String × String × String => decide (t.2.1 = nm))
    (fun p : String × IPConfig => (p.1, identView p.2)) d2
  rw [h] at h1
  rw [h2] at h1
  exact h1.symm

theorem countP_mkEntries (pref role : String) (nm : String) :
    ∀ (names : List String) (c : Nat),
    (mkEntries pref role c names).countP (fun p => decide (p.2.original_name = nm)) =
      names.count nm := by
  intro names
  induction names with
  | nil => intro c; rfl
  | cons x rest ih =>
    intro c
    rw [mkEntries, List.countP_cons, ih (c + 1), List.count_cons]
    simp [IPConfig.mkBasic]

theorem recordsFor_runPipeline (ipRows : List IPRow) (icRows : List InterconnectConfig)
    (nm : String) :
    (recordsFor (runPipeline ipRows icRows).ip_configs nm).length =
      (sortNames (masterNameSet (dictValues (loadInterconnects icRows)))).count nm +
      (sortNames (slaveNameSet (dictValues (loadInterconnects icRows)))).count nm := by
  rw [recordsFor_length_of_view (runPipeline_identView ipRows icRows) nm]
  unfold recordsFor
  rw [← List.countP_eq_length_filter, List.countP_append,
    countP_mkEntries "M" "master" nm _ 0, countP_mkEntries "S" "slave" nm _ 0]

theorem count_sortNames (l : List String) (nm : String) :
    (sortNames l).count nm = l.count nm :=
  (sortNames_perm l).count_eq nm

theorem keys_of_view {d1 d2 : List (String × IPConfig)}
    (h : d1.map (fun p => (p.1, identView p.2)) = d2.map (fun p => (p.1, identView p.2))) :
    d1.map Prod.fst = d2.map Prod.fst := by
  have h2 := congrArg (List.map (fun q : String × String × String => q.1)) h
  simpa [List.map_map, Function.comp] using h2

theorem keys_runPipeline (ipRows : List IPRow) (icRows : List InterconnectConfig) :
    (runPipeline ipRows icRows).ip_configs.map Prod.fst =
      idBlock "M" 0 (sortNames (masterNameSet (dictValues (loadInterconnects icRows)))) ++
      idBlock "S" 0 (sortNames (slaveNameSet (dictValues (loadInterconnects icRows)))) := by
  rw [keys_of_view (runPipeline_identView ipRows icRows)]
  rw [List.map_append, mkEntries_keys, mkEntries_keys]

theorem roleKeys_of_view {d1 d2 : List (String × IPConfig)}
    (h : d1.map (fun p => (p.1, identView p.2)) = d2.map (fun p => (p.1, identView p.2)))
    (role : String) :
    (d1.filter (fun p => p.2.role = role)).map Prod.fst =
      (d2.filter (fun p => p.2.role = role)).map Prod.fst := by
  show (List.filter (fun p => decide (p.2.role = role)) d1).map
      (fun p : String × IPConfig => p.1) =
    (List.filter (fun p => decide (p.2.role = role)) d2).map
      (fun p : String × IPConfig => p.1)
  have k1 := @List.filter_map (String × IPConfig) (String × String × String)
    (fun t => decide (t.2.2 = role)) (fun p => (p.1, identView p.2)) d1
  have k2 := @List.filter_map (String × IPConfig) (String × String × String)
    (fun t => decide (t.2.2 = role)) (fun p => (p.1, identView p.2)) d2
  rw [h] at k1
  rw [k2] at k1
  have h3 := congrArg (List.map (fun q : String × String × String => q.1)) k1
  rw [List.map_map, List.map_map] at h3
  simp only [Function.comp, identView] at h3
  exact h3.symm

theorem filter_role_create (sm ss : List String) :
    ((mkEntries "M" "master" 0 sm ++ mkEntries "S" "slave" 0 ss).filter
        (fun p => p.2.role = "master")).map Prod.fst = idBlock "M" 0 sm ∧
    ((mkEntries "M" "master" 0 sm ++ mkEntries "S" "slave" 0 ss).filter
        (fun p => p.2.role = "slave")).map Prod.fst = idBlock "S" 0 ss := by
  constructor
  · rw [List.filter_append]
    have h1 : (mkEntries "M" "master" 0 sm).filter (fun p => p.2.role = "master") =
        mkEntries "M" "master" 0 sm := by
      apply List.filter_eq_self.mpr
      intro p hp
      simp [mkEntries_role "M" "master" sm 0 p hp]
    have h2 : (mkEntries "S" "slave" 0 ss).filter
        (fun p => p.2.role = "master") = [] := by
      apply List.filter_eq_nil_iff.mpr
      intro p hp
      simp [mkEntries_role "S" "slave" ss 0 p hp]
    rw [h1, h2, List.append_nil, mkEntries_keys]
  · rw [List.filter_append]
    have h1 : (mkEntries "M" "master" 0 sm).filter (fun p => p.2.role = "slave") = [] := by
      apply List.filter_eq_nil_iff.mpr
      intro p hp
      simp [mkEntries_role "M" "master" sm 0 p hp]
    have h2 : (mkEntries "S" "slave" 0 ss).filter (fun p => p.2.role = "slave") =
        mkEntries "S" "slave" 0 ss := by
      apply List.filter_eq_self.mpr
      intro p hp
      simp [mkEntries_role "S" "slave" ss 0 p hp]
    rw [h1, h2, List.nil_append, mkEntries_keys]

theorem idBlock_nodup (pref : String) (c : Nat) (names : List String) :
    (idBlock pref c names).Nodup := by
  rw [idBlock_eq_range]
  apply List.Nodup.map
  · intro i j h
    have := prefix_repr_inj pref h
    omega
  · exact List.nodup_range _

theorem keys_create_nodup (sm ss : List String) :
    (idBlock "M" 0 sm ++ idBlock "S" 0 ss).Nodup := by
  rw [List.nodup_append]
  refine ⟨idBlock_nodup "M" 0 sm, idBlock_nodup "S" 0 ss, ?_⟩
  intro a ha hb
  rw [idBlock_eq_range] at ha hb
  rcases List.mem_map.mp ha with ⟨i, _, hi⟩
  rcases List.mem_map.mp hb with ⟨j, _, hj⟩
  exact prefix_MS_ne (Nat.repr (0 + i + 1)) (Nat.repr (0 + j + 1)) (hi.trans hj.symm)

theorem runPipeline_master_count (ipRows : List IPRow) (icRows : List InterconnectConfig) :
    (runPipeline ipRows icRows).master_count =
      (sortNames (masterNameSet (dictValues (loadInterconnects icRows)))).length := by
  unfold runPipeline runPipelineWith
  dsimp only
  rw [(applyICs_frame _ _).2.1, identify_unfold, (backfill_frame _ _).2.1]

theorem runPipeline_slave_count (ipRows : List IPRow) (icRows : List InterconnectConfig) :
    (runPipeline ipRows icRows).slave_count =
      (sortNames (slaveNameSet (dictValues (loadInterconnects icRows)))).length := by
  unfold runPipeline runPipelineWith
  dsimp only
  rw [(applyICs_frame _ _).2.2.1, identify_unfold, (backfill_frame _ _).2.2.1]

theorem runPipeline_conflicts (ipRows : List IPRow) (icRows : List InterconnectConfig) :
    (runPipeline ipRows icRows).role_conflicts =
      (sortNames (masterNameSet (dictValues (loadInterconnects icRows)))).filter
        (fun nm => decide (nm ∈ slaveNameSet (dictValues (loadInterconnects icRows)))) := by
  unfold runPipeline runPipelineWith
  dsimp only
  rw [(applyICs_frame _ _).2.2.2, identify_unfold, (backfill_frame _ _).2.2.2.1]

theorem backfill_empty_map (rows : List IPRow) :
    ∀ (st : GenState), st.original_ip_map = [] → backfill rows st = st := by
  induction rows with
  | nil => intro st _; rfl
  | cons r rows ih =>
    intro st h
    have hrow : backfillRow st r = st := by
      unfold backfillRow
      rw [h]
      simp [dictLookup]
    rw [backfill_cons, hrow, ih st h]

theorem runPipeline_no_ics (rows : List IPRow) :
    runPipeline rows [] =
      { ip_configs := [], original_ip_map := [], master_count := 0, slave_count := 0,
        role_conflicts := [], dangling_warnings := [] } := by
  unfold runPipeline runPipelineWith
  dsimp only
  rw [identify_unfold]
  rw [backfill_empty_map rows _ rfl]
  rfl

/-! ## Assembled pipeline-level facts -/

theorem create_lookup_resolved {sm ss : List String} {nm id : String}
    (hid : resolvedId sm ss nm = some id) :
    ∃ c0, dictLookup (mkEntries "M" "master" 0 sm ++ mkEntries "S" "slave" 0 ss) id = some c0 ∧
      c0.original_name = nm := by
  unfold resolvedId at hid
  by_cases hs : nm ∈ ss
  · rw [if_pos hs] at hid
    obtain rfl : ("S" ++ Nat.repr (List.indexOf nm ss + 1)) = id := by injection hid
    exact ⟨_, lookup_create_S sm ss hs, rfl⟩
  · rw [if_neg hs] at hid
    by_cases hm : nm ∈ sm
    · rw [if_pos hm] at hid
      obtain rfl : ("M" ++ Nat.repr (List.indexOf nm sm + 1)) = id := by injection hid
      exact ⟨_, lookup_create_M sm ss hm, rfl⟩
    · rw [if_neg hm] at hid
      exact absurd hid (by simp)

theorem identify_map (ipRows : List IPRow) (icRows : List InterconnectConfig) (nm : String) :
    dictLookup (identifyMastersSlavesWith
        (masterNameSet (dictValues (loadInterconnects icRows)))
        (slaveNameSet (dictValues (loadInterconnects icRows))) ipRows
        initState).original_ip_map nm =
      resolvedId (sortNames (masterNameSet (dictValues (loadInterconnects icRows))))
        (sortNames (slaveNameSet (dictValues (loadInterconnects icRows)))) nm := by
  rw [identify_unfold, (backfill_frame _ _).1]
  exact map_create_eq_resolved (sortNames_nodup (masterNameSet_nodup _))
    (sortNames_nodup (slaveNameSet_nodup _)) nm

theorem identify_lookup_isSome (ipRows : List IPRow) (icRows : List InterconnectConfig)
    {nm id : String}
    (hid : resolvedId (sortNames (masterNameSet (dictValues (loadInterconnects icRows))))
      (sortNames (slaveNameSet (dictValues (loadInterconnects icRows)))) nm = some id) :
    (dictLookup (identifyMastersSlavesWith
        (masterNameSet (dictValues (loadInterconnects icRows)))
        (slaveNameSet (dictValues (loadInterconnects icRows))) ipRows
        initState).ip_configs id).isSome = true := by
  rw [identify_unfold]
  rw [lookup_isSome_of_view_eq (backfill_view ipRows _)]
  obtain ⟨c0, hc0, _⟩ := create_lookup_resolved hid
  rw [hc0]
  rfl

theorem lookup_identView_final (ipRows : List IPRow) (icRows : List InterconnectConfig)
    (k : String) :
    (dictLookup (runPipeline ipRows icRows).ip_configs k).map identView =
      (dictLookup (mkEntries "M" "master" 0
          (sortNames (masterNameSet (dictValues (loadInterconnects icRows)))) ++
        mkEntries "S" "slave" 0
          (sortNames (slaveNameSet (dictValues (loadInterconnects icRows))))) k).map
        identView := by
  have l1 := dictLookup_map_view identView (runPipeline ipRows icRows).ip_configs k
  have l2 := dictLookup_map_view identView
    (mkEntries "M" "master" 0
        (sortNames (masterNameSet (dictValues (loadInterconnects icRows)))) ++
      mkEntries "S" "slave" 0
        (sortNames (slaveNameSet (dictValues (loadInterconnects icRows))))) k
  rw [runPipeline_identView] at l1
  rw [l2] at l1
  exact l1.symm

theorem runPipelineWith_perm (ipRows : List IPRow) (icRows : List InterconnectConfig)
    (em es : List String)
    (hm : em.Perm (masterNameSet (dictValues (loadInterconnects icRows))))
    (hs : es.Perm (slaveNameSet (dictValues (loadInterconnects icRows)))) :
    runPipelineWith em es ipRows icRows = runPipeline ipRows icRows := by
  unfold runPipeline runPipelineWith
  dsimp only
  congr 1
  unfold identifyMastersSlavesWith
  dsimp only
  rw [sortNames_eq_of_perm hm, sortNames_eq_of_perm hs]
  have hfil : (sortNames (masterNameSet (dictValues (loadInterconnects icRows)))).filter
      (fun nm => decide (nm ∈ es)) =
    (sortNames (masterNameSet (dictValues (loadInterconnects icRows)))).filter
      (fun nm => decide (nm ∈ slaveNameSet (dictValues (loadInterconnects icRows)))) :=
    List.filter_congr (fun x _ => decide_eq_decide.mpr hs.mem_iff)
  rw [hfil]

theorem identify_lookup_unmapped (ipRows : List IPRow) (icRows : List InterconnectConfig)
    {k : String}
    (h : ∀ n', resolvedId (sortNames (masterNameSet (dictValues (loadInterconnects icRows))))
      (sortNames (slaveNameSet (dictValues (loadInterconnects icRows)))) n' ≠ some k) :
    dictLookup (identifyMastersSlavesWith
        (masterNameSet (dictValues (loadInterconnects icRows)))
        (slaveNameSet (dictValues (loadInterconnects icRows))) ipRows
        initState).ip_configs k =
      dictLookup (mkEntries "M" "master" 0
          (sortNames (masterNameSet (dictValues (loadInterconnects icRows)))) ++
        mkEntries "S" "slave" 0
          (sortNames (slaveNameSet (dictValues (loadInterconnects icRows))))) k := by
  rw [identify_unfold]
  rw [backfill_lookup_unmapped]
  intro n' hn'
  dsimp only at hn'
  rw [map_create_eq_resolved (sortNames_nodup (masterNameSet_nodup _))
    (sortNames_nodup (slaveNameSet_nodup _))] at hn'
  exact h n' hn'

/-! ## The claims -/

/-- C1 (counterexample): on the input where `x` is listed both as master
and as slave of the same interconnect, the name map assigns `x` the
canonical id `S1` — not an `M`-identifier — and TWO records are created
for `x`, not one, refuting the claim that a role-conflicted name gets
exactly one role (master) and exactly one record. -/
theorem C1_role_conflict_counterexample :
    dictLookup (runPipeline rowsConflict icsConflict).original_ip_map "x" = some "S1" ∧
    (recordsFor (runPipeline rowsConflict icsConflict).ip_configs "x").length = 2 ∧
    "x" ∈ (runPipeline rowsConflict icsConflict).role_conflicts := by decide

/-- C1 (amended): for every original name present in some interconnect's
master list and in some interconnect's slave list, the Identity Resolver
reports a role conflict, but it assigns the name to the SLAVE side of the
name map — the slave loop runs second and overwrites the master mapping,
so the name maps to the canonical id `"S" ++ repr (rank in the sorted
slave set)` — and exactly two records are created for the name (an
M-keyed master record and an S-keyed slave record). -/
theorem C1_role_conflict_amended (ipRows : List IPRow) (icRows : List InterconnectConfig)
    (nm : String)
    (hm : nm ∈ masterNameSet (dictValues (loadInterconnects icRows)))
    (hs : nm ∈ slaveNameSet (dictValues (loadInterconnects icRows))) :
    nm ∈ (runPipeline ipRows icRows).role_conflicts ∧
    dictLookup (runPipeline ipRows icRows).original_ip_map nm =
      some ("S" ++ Nat.repr (List.indexOf nm
        (sortNames (slaveNameSet (dictValues (loadInterconnects icRows)))) + 1)) ∧
    (recordsFor (runPipeline ipRows icRows).ip_configs nm).length = 2 := by
  refine ⟨?_, ?_, ?_⟩
  · rw [runPipeline_conflicts]
    exact List.mem_filter.mpr ⟨mem_sortNames.mpr hm, by simp [hs]⟩
  · rw [runPipeline_map]
    unfold resolvedId
    rw [if_pos (mem_sortNames.mpr hs)]
  · rw [recordsFor_runPipeline, count_sortNames, count_sortNames,
      List.count_eq_one_of_mem (masterNameSet_nodup _) hm,
      List.count_eq_one_of_mem (slaveNameSet_nodup _) hs]

/-- C1 (witness): the amended statement holds on the concrete
conflicting input. -/
theorem C1_role_conflict_amended_witness :
    "x" ∈ (runPipeline rowsConflict icsConflict).role_conflicts ∧
    dictLookup (runPipeline rowsConflict icsConflict).original_ip_map "x" =
      some ("S" ++ Nat.repr (List.indexOf "x"
        (sortNames (slaveNameSet (dictValues (loadInterconnects icsConflict)))) + 1)) ∧
    (recordsFor (runPipeline rowsConflict icsConflict).ip_configs "x").length = 2 :=
  C1_role_conflict_amended rowsConflict icsConflict "x" (by decide) (by decide)

/-- C2 (counterexample): the interconnect `ic1` lists `ghost`, a name with
no IP-table row.  The claim says a dangling-reference warning is emitted,
the reference is skipped and no record is created; in fact no warning is
ever emitted, a record `M1` for `ghost` IS created (with placeholder
baselines) and the reference is not skipped — the record receives the
interconnect's propagated values and appears in the output. -/
theorem C2_dangling_counterexample :
    (runPipeline rowsDangling icsDangling).dangling_warnings = [] ∧
    (recordsFor (runPipeline rowsDangling icsDangling).ip_configs "ghost").length = 1 ∧
    dictLookup (runPipeline rowsDangling icsDangling).ip_configs "M1" =
      some { original_name := "ghost", role := "master", read_write := "-",
             original_bit_width := 0, original_frequency := 0, original_clk_domain := "-",
             final_bit_width := 64, final_frequency := 200, final_protocol := "AXI",
             final_clk_domain := "ck", connected_interconnect := "ic1" } := by decide

/-- C2 (amended): the dangling-reference warning branch of
`_apply_interconnect_properties` is unreachable, because
`_identify_masters_slaves` rebuilds `original_ip_map` from the very
master/slave lists being looked up.  For every name referenced by a loaded
interconnect — whether or not it has an IP-table row — the pipeline emits
no warning and a record for the name exists (so a row for it appears in
the output). -/
theorem C2_dangling_amended (ipRows : List IPRow) (icRows : List InterconnectConfig)
    (nm : String) (ic : InterconnectConfig)
    (hic : ic ∈ dictValues (loadInterconnects icRows))
    (h : nm ∈ ic.master_ips ∨ nm ∈ ic.slave_ips) :
    (runPipeline ipRows icRows).dangling_warnings = [] ∧
    1 ≤ (recordsFor (runPipeline ipRows icRows).ip_configs nm).length := by
  refine ⟨runPipeline_no_warnings _ _, ?_⟩
  rw [recordsFor_runPipeline, count_sortNames, count_sortNames]
  rcases h with h | h
  · rw [List.count_eq_one_of_mem (masterNameSet_nodup _) (mem_masterNameSet hic h)]
    omega
  · rw [List.count_eq_one_of_mem (slaveNameSet_nodup _) (mem_slaveNameSet hic h)]
    omega

/-- C2 (witness): the amended statement holds for the `ghost` reference of
the concrete dangling input. -/
theorem C2_dangling_amended_witness :
    (runPipeline rowsDangling icsDangling).dangling_warnings = [] ∧
    1 ≤ (recordsFor (runPipeline rowsDangling icsDangling).ip_configs "ghost").length :=
  C2_dangling_amended rowsDangling icsDangling "ghost"
    { name := "ic1", bit_width := 64, frequency := 200, protocol := "AXI", clk_domain := "ck",
      master_ips := ["ghost"], slave_ips := ["a"] } (by decide) (by decide)

/-- C3: last-writer-wins.  If `L` is the last interconnect in dictionary
order whose master or slave list mentions `nm`, then after the pipeline
the record that `nm` resolves to carries exactly `L`'s bit width,
frequency, protocol and clock domain, and `connected_interconnect = L`'s
name. -/
theorem C3_last_writer_wins (ipRows : List IPRow) (icRows : List InterconnectConfig)
    (nm : String) (L : InterconnectConfig)
    (hL : ((dictValues (loadInterconnects icRows)).filter (refsName nm)).getLast? = some L) :
    ∃ id c,
      dictLookup (runPipeline ipRows icRows).original_ip_map nm = some id ∧
      dictLookup (runPipeline ipRows icRows).ip_configs id = some c ∧
      c.final_bit_width = L.bit_width ∧ c.final_frequency = L.frequency ∧
      c.final_protocol = L.protocol ∧ c.final_clk_domain = L.clk_domain ∧
      c.connected_interconnect = L.name := by
  have hLf := List.mem_of_mem_getLast? hL
  rcases List.mem_filter.mp hLf with ⟨hLmem, hLref⟩
  have hmm : nm ∈ sortNames (masterNameSet (dictValues (loadInterconnects icRows))) ∨
      nm ∈ sortNames (slaveNameSet (dictValues (loadInterconnects icRows))) := by
    unfold refsName at hLref
    simp only [Bool.or_eq_true, decide_eq_true_eq] at hLref
    rcases hLref with h | h
    · exact Or.inl (mem_sortNames.mpr (mem_masterNameSet hLmem h))
    · exact Or.inr (mem_sortNames.mpr (mem_slaveNameSet hLmem h))
  obtain ⟨id, hid⟩ := resolvedId_isSome hmm
  have hmapF : dictLookup (runPipeline ipRows icRows).original_ip_map nm = some id := by
    rw [runPipeline_map]
    exact hid
  have hmain : ∃ c, dictLookup (runPipeline ipRows icRows).ip_configs id = some c ∧
      hasICValues c L := by
    unfold runPipeline runPipelineWith
    dsimp only
    apply applyICs_last _ _ nm id L
    · rw [identify_map]
      exact hid
    · intro n' hn'
      rw [identify_map] at hn'
      exact resolvedId_inj _ _ hn' hid
    · exact identify_lookup_isSome ipRows icRows hid
    · exact hL
  obtain ⟨c, hc, hv⟩ := hmain
  exact ⟨id, c, hmapF, hc, hv.1, hv.2.1, hv.2.2.1, hv.2.2.2.1, hv.2.2.2.2⟩

/-- C3 (witness): `p` is referenced by `icA` (first row) and `icB`
(second row); the final record carries `icB`'s values. -/
theorem C3_last_writer_wins_witness :
    ∃ id c,
      dictLookup (runPipeline rowsP icsTwoRefs).original_ip_map "p" = some id ∧
      dictLookup (runPipeline rowsP icsTwoRefs).ip_configs id = some c ∧
      c.final_bit_width = 16 ∧ c.final_frequency = 300 ∧
      c.final_protocol = "AXI" ∧ c.final_clk_domain = "cb" ∧
      c.connected_interconnect = "icB" :=
  C3_last_writer_wins rowsP icsTwoRefs "p"
    { name := "icB", bit_width := 16, frequency := 300, protocol := "AXI", clk_domain := "cb",
      master_ips := [], slave_ips := ["p"] } (by decide)

/-- C4 (counterexample): with a one-entry IP table and an empty
interconnect table the pipeline does not fail, but the output contains
zero IP rows — not one row per IP-table entry as claimed. -/
theorem C4_empty_interconnects_counterexample :
    rowsOnlyIP.length = 1 ∧ outputLines (runPipeline rowsOnlyIP []) = [] := by decide

/-- C4 (amended): with an empty or absent interconnect table the pipeline
does not fail, but it produces NO IP records and NO output rows at all —
records are only ever created for names appearing in interconnect
membership lists, so the IP table alone yields nothing. -/
theorem C4_empty_interconnects_amended (rows : List IPRow) :
    (runPipeline rows []).ip_configs = [] ∧
    outputLines (runPipeline rows []) = [] ∧
    (runPipeline rows []).dangling_warnings = [] ∧
    (runPipeline rows []).role_conflicts = [] := by
  rw [runPipeline_no_ics]
  exact ⟨rfl, rfl, rfl, rfl⟩

/-- C5 (counterexample): `ipB` has an IP-table row but is referenced by no
interconnect; the claim says its record survives with baseline values, but
in fact no record for `ipB` exists at all. -/
theorem C5_baseline_counterexample :
    (∃ r ∈ rowsTwoIPs, r.name = "ipB") ∧
    recordsFor (runPipeline rowsTwoIPs icsOnlyA).ip_configs "ipB" = [] := by decide

/-- C5 (amended): an original name that appears in no interconnect's
master or slave list gets NO record whatsoever — even when it has an
IP-table row — so it is absent from the output instead of being preserved
with baseline values. -/
theorem C5_baseline_amended (ipRows : List IPRow) (icRows : List InterconnectConfig)
    (nm : String)
    (h1 : nm ∉ masterNameSet (dictValues (loadInterconnects icRows)))
    (h2 : nm ∉ slaveNameSet (dictValues (loadInterconnects icRows))) :
    recordsFor (runPipeline ipRows icRows).ip_configs nm = [] := by
  have hlen := recordsFor_runPipeline ipRows icRows nm
  rw [count_sortNames, count_sortNames, List.count_eq_zero.mpr h1,
    List.count_eq_zero.mpr h2] at hlen
  exact List.length_eq_zero.mp (by omega)

/-- C5 (witness): the amended statement holds for `ipB` on the concrete
input where only `ipA` is referenced. -/
theorem C5_baseline_amended_witness :
    recordsFor (runPipeline rowsTwoIPs icsOnlyA).ip_configs "ipB" = [] :=
  C5_baseline_amended rowsTwoIPs icsOnlyA "ipB" (by decide) (by decide)

/-- C6: canonical-id density.  The keys of the master-role records are
exactly `M1 … M(master_count)` in order, the keys of the slave-role
records are exactly `S1 … S(slave_count)` in order, and all canonical ids
are distinct across the two roles. -/
theorem C6_id_density (ipRows : List IPRow) (icRows : List InterconnectConfig) :
    ((runPipeline ipRows icRows).ip_configs.filter
        (fun p => p.2.role = "master")).map Prod.fst =
      (List.range (runPipeline ipRows icRows).master_count).map
        (fun i => "M" ++ Nat.repr (i + 1)) ∧
    ((runPipeline ipRows icRows).ip_configs.filter
        (fun p => p.2.role = "slave")).map Prod.fst =
      (List.range (runPipeline ipRows icRows).slave_count).map
        (fun i => "S" ++ Nat.repr (i + 1)) ∧
    ((runPipeline ipRows icRows).ip_configs.map Prod.fst).Nodup := by
  have hv := runPipeline_identView ipRows icRows
  refine ⟨?_, ?_, ?_⟩
  · rw [roleKeys_of_view hv "master", (filter_role_create _ _).1, idBlock_eq_range,
      runPipeline_master_count]
    simp
  · rw [roleKeys_of_view hv "slave", (filter_role_create _ _).2, idBlock_eq_range,
      runPipeline_slave_count]
    simp
  · rw [keys_runPipeline]
    exact keys_create_nodup _ _

/-- C7: the round-trip scenario.  On the two-IP input with the single
interconnect `busX`, the pipeline assigns `M1 = ipA` and `S1 = ipB`, and
both records end with bit width 128, frequency 400, protocol AXI, clock
domain clkX and connected interconnect busX. -/
theorem C7_round_trip :
    dictLookup (runPipeline rowsTwoIPs icsRoundTrip).original_ip_map "ipA" = some "M1" ∧
    dictLookup (runPipeline rowsTwoIPs icsRoundTrip).original_ip_map "ipB" = some "S1" ∧
    dictLookup (runPipeline rowsTwoIPs icsRoundTrip).ip_configs "M1" =
      some { original_name := "ipA", role := "master", read_write := "R",
             original_bit_width := 32, original_frequency := 100, original_clk_domain := "clkA",
             final_bit_width := 128, final_frequency := 400, final_protocol := "AXI",
             final_clk_domain := "clkX", connected_interconnect := "busX" } ∧
    dictLookup (runPipeline rowsTwoIPs icsRoundTrip).ip_configs "S1" =
      some { original_name := "ipB", role := "slave", read_write := "W",
             original_bit_width := 64, original_frequency := 200, original_clk_domain := "clkB",
             final_bit_width := 128, final_frequency := 400, final_protocol := "AXI",
             final_clk_domain := "clkX", connected_interconnect := "busX" } := by decide

/-- C8: property propagation is a frame: it changes only the `final_*`
fields and `connected_interconnect` of existing records — every record's
key, original name, role, read/write and baseline attributes are
unchanged, and no record is added or removed. -/
theorem C8_propagation_frame (ics : List InterconnectConfig) (st : GenState) :
    (applyInterconnectProperties ics st).ip_configs.map (fun p => (p.1, frozenView p.2)) =
      st.ip_configs.map (fun p => (p.1, frozenView p.2)) ∧
    (applyInterconnectProperties ics st).ip_configs.length = st.ip_configs.length := by
  refine ⟨applyICs_view ics st, ?_⟩
  have := congrArg List.length (applyICs_view ics st)
  simpa using this

/-- C9: determinism.  The canonical-id assignment and the rendered output
are fully determined by the input: running the pipeline with ANY
enumeration of the two name sets (modelling arbitrary hash-set iteration
order) produces exactly the canonical result, and hence byte-identical
output text. -/
theorem C9_determinism (ipRows : List IPRow) (icRows : List InterconnectConfig)
    (em es : List String)
    (hm : em.Perm (masterNameSet (dictValues (loadInterconnects icRows))))
    (hs : es.Perm (slaveNameSet (dictValues (loadInterconnects icRows)))) :
    runPipelineWith em es ipRows icRows = runPipeline ipRows icRows ∧
    renderOutput (runPipelineWith em es ipRows icRows) =
      renderOutput (runPipeline ipRows icRows) := by
  have h := runPipelineWith_perm ipRows icRows em es hm hs
  exact ⟨h, congrArg renderOutput h⟩

/-- C9 (witness): the set enumeration `["a", "b"]` is a permutation of the
canonical enumeration `["b", "a"]` of the master set, and both runs agree. -/
theorem C9_determinism_witness :
    runPipelineWith ["a", "b"] [] rowsOnlyIP icsTwoMasters =
      runPipeline rowsOnlyIP icsTwoMasters ∧
    renderOutput (runPipelineWith ["a", "b"] [] rowsOnlyIP icsTwoMasters) =
      renderOutput (runPipeline rowsOnlyIP icsTwoMasters) :=
  C9_determinism rowsOnlyIP icsTwoMasters ["a", "b"] [] (by decide) (by decide)

/-- C10: for every name listed both as a master and as a slave, the
pipeline creates two records — an M-keyed master record and an S-keyed
slave record — the name map points at the S identifier, and only the
slave record is ever updated: the master record still equals its
creation-time defaults (read/write `-`, widths 0, protocol `-`, clock
domain `-`, interconnect `-`), which is exactly what the output shows for
it. -/
theorem C10_conflict_split_records (ipRows : List IPRow) (icRows : List InterconnectConfig)
    (nm : String)
    (hm : nm ∈ masterNameSet (dictValues (loadInterconnects icRows)))
    (hs : nm ∈ slaveNameSet (dictValues (loadInterconnects icRows))) :
    dictLookup (runPipeline ipRows icRows).original_ip_map nm =
      some ("S" ++ Nat.repr (List.indexOf nm
        (sortNames (slaveNameSet (dictValues (loadInterconnects icRows)))) + 1)) ∧
    (∃ c, dictLookup (runPipeline ipRows icRows).ip_configs
        ("S" ++ Nat.repr (List.indexOf nm
          (sortNames (slaveNameSet (dictValues (loadInterconnects icRows)))) + 1)) = some c ∧
      c.role = "slave" ∧ c.original_name = nm) ∧
    dictLookup (runPipeline ipRows icRows).ip_configs
        ("M" ++ Nat.repr (List.indexOf nm
          (sortNames (masterNameSet (dictValues (loadInterconnects icRows)))) + 1)) =
      some (IPConfig.mkBasic nm "master" "-" 0 0 "-") := by
  have hsmem : nm ∈ sortNames (slaveNameSet (dictValues (loadInterconnects icRows))) :=
    mem_sortNames.mpr hs
  have hmmem : nm ∈ sortNames (masterNameSet (dictValues (loadInterconnects icRows))) :=
    mem_sortNames.mpr hm
  refine ⟨?_, ?_, ?_⟩
  · rw [runPipeline_map]
    unfold resolvedId
    rw [if_pos hsmem]
  · have hview := lookup_identView_final ipRows icRows
      ("S" ++ Nat.repr (List.indexOf nm
        (sortNames (slaveNameSet (dictValues (loadInterconnects icRows)))) + 1))
    rw [lookup_create_S _ _ hsmem] at hview
    rcases Option.map_eq_some'.mp hview with ⟨c, hc, hcv⟩
    exact ⟨c, hc, congrArg Prod.snd hcv, congrArg Prod.fst hcv⟩
  · have hnoR : ∀ n',
        resolvedId (sortNames (masterNameSet (dictValues (loadInterconnects icRows))))
          (sortNames (slaveNameSet (dictValues (loadInterconnects icRows)))) n' ≠
        some ("M" ++ Nat.repr (List.indexOf nm
          (sortNames (masterNameSet (dictValues (loadInterconnects icRows)))) + 1)) := by
      intro n' hn'
      unfold resolvedId at hn'
      by_cases hs' : n' ∈ sortNames (slaveNameSet (dictValues (loadInterconnects icRows)))
      · rw [if_pos hs'] at hn'
        have heq := Option.some.inj hn'
        exact prefix_MS_ne _ _ heq.symm
      · rw [if_neg hs'] at hn'
        by_cases hm' : n' ∈ sortNames (masterNameSet (dictValues (loadInterconnects icRows)))
        · rw [if_pos hm'] at hn'
          have heq := Option.some.inj hn'
          have hidx := prefix_repr_inj "M" heq
          have hnm : n' = nm := (List.indexOf_inj hm' hmmem).mp (by omega)
          exact hs' (hnm ▸ hsmem)
        · rw [if_neg hm'] at hn'
          exact Option.noConfusion hn'
    unfold runPipeline runPipelineWith
    dsimp only
    rw [applyICs_lookup_unmapped _ _ _ ?hno]
    case hno =>
      intro n' hn'
      rw [identify_map] at hn'
      exact hnoR n' hn'
    rw [identify_lookup_unmapped ipRows icRows hnoR]
    exact lookup_create_M _ _ hmmem

/-- C10 (witness): the split-record behaviour on the concrete conflicting
input. -/
theorem C10_conflict_split_records_witness :
    dictLookup (runPipeline rowsConflict icsConflict).original_ip_map "x" =
      some ("S" ++ Nat.repr (List.indexOf "x"
        (sortNames (slaveNameSet (dictValues (loadInterconnects icsConflict)))) + 1)) ∧
    (∃ c, dictLookup (runPipeline rowsConflict icsConflict).ip_configs
        ("S" ++ Nat.repr (List.indexOf "x"
          (sortNames (slaveNameSet (dictValues (loadInterconnects icsConflict)))) + 1)) = some c ∧
      c.role = "slave" ∧ c.original_name = "x") ∧
    dictLookup (runPipeline rowsConflict icsConflict).ip_configs
        ("M" ++ Nat.repr (List.indexOf "x"
          (sortNames (masterNameSet (dictValues (loadInterconnects icsConflict)))) + 1)) =
      some (IPConfig.mkBasic "x" "master" "-" 0 0 "-") :=
  C10_conflict_split_records rowsConflict icsConflict "x" (by decide) (by decide)
